import Mathlib

/-!
Verification of the core behaviors of `app_negocio.py`, a small Flask
inventory application.  The Python functions are shallowly embedded as
executable Lean definitions over `List Char` / `String`, `ℤ` and `ℚ`
(Python floats are modelled as exact rationals, since every operation the
claims mention is parse / arithmetic / compare on decimal values).
The SQLite product table is modelled as a `List Producto` together with a
next-id counter; SQL statements become the corresponding pure list
transformations.
-/

namespace AppNegocio

/-! ## Character and digit helpers -/

/-- Numeric value of a decimal digit character (`'0'` ↦ 0, …, `'9'` ↦ 9). -/
def digitVal (c : Char) : ℕ := c.toNat - 48

/-- The decimal digit character of `d` (for `d < 10`); used to render numbers. -/
def digitChar (d : ℕ) : Char :=
  match d with
  | 0 => '0' | 1 => '1' | 2 => '2' | 3 => '3' | 4 => '4'
  | 5 => '5' | 6 => '6' | 7 => '7' | 8 => '8' | _ => '9'

/-- Value of a digit string read most-significant first, e.g. `"473"` ↦ 473. -/
def digitsVal (l : List Char) : ℕ := l.foldl (fun a c => 10 * a + digitVal c) 0

/-- Fuel-driven digit extraction: with `n < fuel`, yields the decimal digits
of `n` most significant first. Structural recursion on the fuel keeps the
definition kernel-computable. -/
def natDigitsAux : ℕ → ℕ → List Char
  | 0, _ => []
  | f + 1, n => if n < 10 then [digitChar n] else natDigitsAux f (n / 10) ++ [digitChar (n % 10)]

/-- Decimal digits of a natural number, most significant first (`0` ↦ `"0"`). -/
def natDigits (n : ℕ) : List Char := natDigitsAux (n + 1) n

/-! ## Price normalizer (`normalizar_precio`, lines 22–48)

Python:
```
if not valor: return 0.0
valor = str(valor).strip()
valor = re.sub(r"[^0-9,\.]", "", valor)
if valor.count('.') > 1:
    partes = valor.split('.')
    valor = ''.join(partes[:-1]) + '.' + partes[-1]
if ',' in valor:
    valor = valor.replace('.', '').replace(',', '.')
try: return float(valor)
except ValueError: return 0.0
```
-/

/-- `str.strip()`: drop whitespace at both ends. -/
def strip (l : List Char) : List Char :=
  ((l.dropWhile Char.isWhitespace).reverse.dropWhile Char.isWhitespace).reverse

/-- The character class `[0-9,\.]` kept by the cleaning regex. -/
def esPrecioChar (c : Char) : Bool := c.isDigit || c == ',' || c == '.'

/-- `re.sub(r"[^0-9,\.]", "", valor)`: keep only digits, comma and period. -/
def limpiar (l : List Char) : List Char := l.filter esPrecioChar

/-- Python `str.split(sep)` for a one-character separator: adjacent separators
produce empty segments and the result is never empty. -/
def splitOn (sep : Char) (l : List Char) : List (List Char) :=
  l.foldr
    (fun c acc =>
      if c == sep then [] :: acc
      else
        match acc with
        | [] => [[c]]
        | h :: t => (c :: h) :: t)
    [[]]

/-- The multi-period rule: if more than one `'.'` occurs, join every
period-separated segment except the last and keep the last as the fractional
part (`"47.473.63"` ↦ `"47473.63"`). -/
def colapsarPuntos (l : List Char) : List Char :=
  if l.count '.' > 1 then
    let partes := splitOn '.' l
    partes.dropLast.foldr (· ++ ·) [] ++ '.' :: partes.getLastD []
  else l

/-- The comma rule: if a comma is present, remove all periods and turn every
comma into a period (`"47.473,63"` ↦ `"47473.63"`). -/
def comaADecimal (l : List Char) : List Char :=
  if l.contains ',' then
    (l.filter (fun c => !(c == '.'))).map (fun c => if c == ',' then '.' else c)
  else l

/-- Model of Python `float(s)` restricted to the strings the normalizer can
produce (digits, periods, commas): it succeeds exactly when every character is
a digit or a period, at most one period occurs and at least one digit occurs,
and then yields `intpart + fracpart / 10^(#frac digits)`. Any comma (or other
character) makes `float` raise `ValueError`, modelled as `none`. -/
def floatVal? (l : List Char) : Option ℚ :=
  if (l.all fun c => c.isDigit || c == '.') && l.count '.' ≤ 1 && (l.any fun c => c.isDigit) then
    let ent := l.takeWhile (fun c => !(c == '.'))
    let frac := (l.dropWhile (fun c => !(c == '.'))).drop 1
    some (mkRat (digitsVal ent * 10 ^ frac.length + digitsVal frac) (10 ^ frac.length))
  else none

/-- `normalizar_precio` on a list of characters. -/
def normalizarLista (l : List Char) : ℚ :=
  (floatVal? (comaADecimal (colapsarPuntos (limpiar (strip l))))).getD 0

/-- `normalizar_precio(valor)` for a string input: `if not valor` is the
empty-string test, then strip, clean, collapse periods, apply the comma rule,
and parse, returning `0.0` when the parse fails. -/
def normalizar_precio (valor : String) : ℚ :=
  if valor.data = [] then 0 else normalizarLista valor.data

/-- Rendering of a normalizer output value `n / 10^k` in Python `str(float)`
style: the integer part, a period, then the fractional digits padded with
leading zeros to width `k` (width 1 showing `0` when `k = 0`), e.g.
`decimalRender 4747363 2 = "47473.63"` and `decimalRender 5 0 = "5.0"`. -/
def decimalRender (n k : ℕ) : String :=
  String.mk (natDigits (n / 10 ^ k) ++
    '.' :: (List.replicate (k - (natDigits (n % 10 ^ k)).length) '0' ++ natDigits (n % 10 ^ k)))

/-! ## Data model

The `productos` table (id, nombre, cantidad, stock_minimo, precio_costo,
proveedor, ganancia).  `REAL` columns are modelled as exact rationals and the
`INTEGER` columns as `ℤ`; the `ganancia REAL DEFAULT 0` column is never
`NULL` through any code path of the application, so it is a plain `ℚ` and the
recurring Python idiom `p["ganancia"] or 0` is modelled literally by
`orCero`. -/
structure Producto where
  id : ℕ
  nombre : String
  cantidad : ℤ
  stock_minimo : ℤ
  precio_costo : ℚ
  proveedor : String
  ganancia : ℚ
deriving DecidableEq

/-- Python `x or 0` for a float `x`: `0.0` is falsy, so this is the identity. -/
def orCero (q : ℚ) : ℚ := if q = 0 then 0 else q

/-- Python `str.lower()` (ASCII range, which is what the data uses). -/
def lowerStr (s : String) : String := String.mk (s.data.map Char.toLower)

/-- `needle` occurs as a prefix (Python `startswith`). -/
def esPrefijo : List Char → List Char → Bool
  | [], _ => true
  | _ :: _, [] => false
  | a :: as, b :: bs => a == b && esPrefijo as bs

/-- Python `needle in haystack`: substring occurrence. -/
def esSubcadena (n : List Char) : List Char → Bool
  | [] => n.isEmpty
  | b :: bs => esPrefijo n (b :: bs) || esSubcadena n bs

/-! ## Pricing view (`inventario`, lines 173–209) -/

/-- One row of the `/inventario` view, with the derived sale price. -/
structure VistaInventario where
  id : ℕ
  nombre : String
  cantidad : ℤ
  stock_minimo : ℤ
  precio_costo : ℚ
  ganancia : ℚ
  precio_venta : ℚ
  proveedor : String
deriving DecidableEq

/-- `precio_venta = p["precio_costo"] * (1 + (p["ganancia"] or 0) / 100)`. -/
def vistaDe (p : Producto) : VistaInventario :=
  ⟨p.id, p.nombre, p.cantidad, p.stock_minimo, p.precio_costo, orCero p.ganancia,
    p.precio_costo * (1 + orCero p.ganancia / 100), p.proveedor⟩

/-- `q in p["nombre"].lower() or q in p["proveedor"].lower()`. -/
def coincideFiltro (q : String) (v : VistaInventario) : Bool :=
  esSubcadena q.data (lowerStr v.nombre).data || esSubcadena q.data (lowerStr v.proveedor).data

/-- The `/inventario` route body over the stored product list: lower the query,
derive the sale price per row, filter when the query is non-empty, then
aggregate `total_costo`, `total_venta` and `ganancia` over the (filtered)
rows.  Returns `(productos, total_costo, total_venta, ganancia)`. -/
def inventario (qRaw : String) (ps : List Producto) :
    List VistaInventario × ℚ × ℚ × ℚ :=
  let q := lowerStr qRaw
  let vistas := ps.map vistaDe
  let productos := if q.data = [] then vistas else vistas.filter (coincideFiltro q)
  let total_costo := (productos.map (fun p => (p.cantidad : ℚ) * p.precio_costo)).sum
  let total_venta := (productos.map (fun p => (p.cantidad : ℚ) * p.precio_venta)).sum
  let ganancia := total_venta - total_costo
  (productos, total_costo, total_venta, ganancia)

/-! ## Sell operation (`vender`, lines 304–315)

`UPDATE productos SET cantidad = cantidad - ? WHERE nombre=? AND cantidad >= ?`
is a single conditional update over the table: every row satisfying the
`WHERE` clause is decremented in one statement, all other rows are untouched. -/
def vender (nombre : String) (cantidad : ℤ) (ps : List Producto) : List Producto :=
  ps.map (fun p =>
    if p.nombre = nombre ∧ cantidad ≤ p.cantidad then
      { p with cantidad := p.cantidad - cantidad }
    else p)

/-! ## Reorder generator (`generar_pedidos` lines 144–157,
`generar_mensaje_whatsapp` lines 159–164) -/

/-- One transient order line: shortfall, product name, cost price. -/
structure LineaPedido where
  faltante : ℤ
  nombre : String
  precio_costo : ℚ
deriving DecidableEq

/-- `pedidos[prov].append(...)` on an insertion-ordered dict modelled as an
association list: append to the first bucket with this key, or append a new
`(key, [line])` entry at the end. -/
def agregarLinea (m : List (String × List LineaPedido)) (prov : String) (linea : LineaPedido) :
    List (String × List LineaPedido) :=
  match m with
  | [] => [(prov, [linea])]
  | (k, ls) :: t =>
    if k = prov then (k, ls ++ [linea]) :: t else (k, ls) :: agregarLinea t prov linea

/-- `faltante = p["stock_minimo"] - p["cantidad"] > 0` selects a product. -/
def conFaltante (p : Producto) : Bool := p.stock_minimo - p.cantidad > 0

/-- The order line built for a selected product. -/
def lineaDe (p : Producto) : LineaPedido := ⟨p.stock_minimo - p.cantidad, p.nombre, p.precio_costo⟩

/-- `generar_pedidos()` over the product list (the rows of
`obtener_productos()`): bucket every under-stocked product by supplier,
preserving first-seen supplier order. -/
def generar_pedidos (ps : List Producto) : List (String × List LineaPedido) :=
  ps.foldl
    (fun pedidos p =>
      if conFaltante p then agregarLinea pedidos p.proveedor (lineaDe p) else pedidos)
    []

/-- The lines of supplier `prov`, in product-list order (specification shape
for the buckets of `generar_pedidos`). -/
def bucketDe (ps : List Producto) (prov : String) : List LineaPedido :=
  ((ps.filter conFaltante).filter (fun p => p.proveedor == prov)).map lineaDe

/-- First occurrences of each element, in first-seen order (specification
shape for the supplier keys of `generar_pedidos`). -/
def primerasApariciones (l : List String) : List String :=
  l.foldl (fun acc x => if x ∈ acc then acc else acc ++ [x]) []

/-- Uppercase hexadecimal digit. -/
def hexDigit (n : ℕ) : Char :=
  match n with
  | 0 => '0' | 1 => '1' | 2 => '2' | 3 => '3' | 4 => '4' | 5 => '5' | 6 => '6' | 7 => '7'
  | 8 => '8' | 9 => '9' | 10 => 'A' | 11 => 'B' | 12 => 'C' | 13 => 'D' | 14 => 'E' | _ => 'F'

/-- UTF-8 encoding of one character. -/
def utf8Bytes (c : Char) : List ℕ :=
  let n := c.toNat
  if n < 128 then [n]
  else if n < 2048 then [192 + n / 64, 128 + n % 64]
  else if n < 65536 then [224 + n / 4096, 128 + n / 64 % 64, 128 + n % 64]
  else [240 + n / 262144, 128 + n / 4096 % 64, 128 + n / 64 % 64, 128 + n % 64]

/-- The bytes `urllib.parse.quote` leaves unescaped: ASCII letters, digits,
`_ . - ~` (always safe) and the default `safe='/'`. -/
def esSafeByte (b : ℕ) : Bool :=
  (65 ≤ b && b ≤ 90) || (97 ≤ b && b ≤ 122) || (48 ≤ b && b ≤ 57) ||
    b == 95 || b == 46 || b == 45 || b == 126 || b == 47

/-- `urllib.parse.quote(s)`: UTF-8 encode and percent-escape every unsafe
byte as `%XX` with uppercase hex. -/
def quote (s : String) : String :=
  String.mk ((s.data.foldr (fun c acc => utf8Bytes c ++ acc) []).foldr
    (fun b acc =>
      if esSafeByte b then Char.ofNat b :: acc
      else '%' :: hexDigit (b / 16) :: hexDigit (b % 16) :: acc)
    [])

/-- Python `str(i)` for an integer. -/
def intStr (i : ℤ) : String :=
  if i < 0 then String.mk ('-' :: natDigits i.natAbs) else String.mk (natDigits i.natAbs)

/-- `generar_mensaje_whatsapp(proveedor, lista)`: header line naming the
supplier, one `- <faltante> <nombre>` line per product, percent-encoded. -/
def generar_mensaje_whatsapp (proveedor : String) (lista : List LineaPedido) : String :=
  quote ("📦 *Pedido para " ++ proveedor ++ "* 📦\n\n" ++
    String.join (lista.map (fun p => "- " ++ intStr p.faltante ++ " " ++ p.nombre ++ "\n")))

/-! ## Python numeric coercions used by the routes and the importer -/

/-- Nonempty all-digit string to its value, else `none`. -/
def parseNatDigits? (l : List Char) : Option ℕ :=
  if l.isEmpty then none
  else if l.all Char.isDigit then some (digitsVal l) else none

/-- Model of Python `int(s)` on strings: surrounding whitespace, an optional
sign, then decimal digits; anything else raises (`none`). -/
def parseEnteroPy (s : String) : Option ℤ :=
  match strip s.data with
  | [] => none
  | c :: rest =>
    if c = '-' then (parseNatDigits? rest).map (fun n : ℕ => -(n : ℤ))
    else if c = '+' then (parseNatDigits? rest).map (fun n : ℕ => (n : ℤ))
    else (parseNatDigits? (c :: rest)).map (fun n : ℕ => (n : ℤ))

/-- Model of Python `float(s)` on strings, for the plain decimal forms the
application feeds it: surrounding whitespace, optional sign, digits with at
most one period (exponent / `inf` / `nan` spellings never occur here). -/
def parseFlotantePy (s : String) : Option ℚ :=
  match strip s.data with
  | [] => none
  | c :: rest =>
    if c = '-' then (floatVal? rest).map (fun q => -q)
    else if c = '+' then floatVal? rest
    else floatVal? (c :: rest)

/-- `s.replace(',', '.')`. -/
def reemplazarComaPunto (s : String) : String :=
  String.mk (s.data.map (fun c => if c == ',' then '.' else c))

/-! ## Spreadsheet import (`importar_excel`, lines 348–436)

A sheet is a column-name list plus rows; a row is an association list from
column name to cell, where a cell is `Option String` (`none` models a
`pd.isna` blank).  Cell contents are modelled as the strings `str(...)` of
the original values. -/

/-- `row[col]`, `none` when the column is missing from the row or blank. -/
def celda (fila : List (String × Option String)) (col : String) : Option String :=
  (fila.lookup col).join

/-- `int(row[col]) if col in df.columns and not pd.isna(row[col]) else None`:
the outer `Option` is the per-row exception, the inner `Option` is
provided-or-not. -/
def campoEntero (cols : List String) (fila : List (String × Option String))
    (col : String) : Option (Option ℤ) :=
  if col ∈ cols then
    match celda fila col with
    | some s => (parseEnteroPy s).map some
    | none => some none
  else some none

/-- `float(str(row[col]).replace(",", ".")) if ... else None`. -/
def campoFlotante (cols : List String) (fila : List (String × Option String))
    (col : String) : Option (Option ℚ) :=
  if col ∈ cols then
    match celda fila col with
    | some s => (parseFlotantePy (reemplazarComaPunto s)).map some
    | none => some none
  else some none

/-- `str(row[col]).strip() if ... else None` (cannot raise). -/
def campoTexto (cols : List String) (fila : List (String × Option String))
    (col : String) : Option String :=
  if col ∈ cols then
    match celda fila col with
    | some s => some (String.mk (strip s.data))
    | none => none
  else none

/-- A resolved import row: required name plus the five optional fields
(`none` = not provided, which is distinct from a provided zero). -/
structure Fila where
  nombre : String
  cantidad : Option ℤ
  stock_minimo : Option ℤ
  precio_costo : Option ℚ
  ganancia : Option ℚ
  proveedor : Option String
deriving DecidableEq

/-- `nombre = str(row["Nombre"]).strip()`; `str` of a blank (`NaN`) cell is
the string `"nan"`. -/
def nombreDe (fila : List (String × Option String)) : String :=
  match celda fila "Nombre" with
  | some s => String.mk (strip s.data)
  | none => "nan"

/-- The whole `try:` coercion prefix of one import row: any failing numeric
coercion aborts this row (`none`). -/
def coerceFila (cols : List String) (fila : List (String × Option String)) : Option Fila := do
  let nombre := nombreDe fila
  let cantidad ← campoEntero cols fila "Cantidad"
  let stock_minimo ← campoEntero cols fila "Stock Mínimo"
  let precio_costo ← campoFlotante cols fila "Precio Costo"
  let ganancia ← campoFlotante cols fila "% Ganancia"
  let proveedor := campoTexto cols fila "Proveedor"
  some ⟨nombre, cantidad, stock_minimo, precio_costo, ganancia, proveedor⟩

/-- The dynamically built `UPDATE` column list: one entry per provided field,
in the source order cantidad, stock_minimo, precio_costo, proveedor,
ganancia. -/
inductive Campo where
  | cantidad (v : ℤ)
  | stock_minimo (v : ℤ)
  | precio_costo (v : ℚ)
  | proveedor (v : String)
  | ganancia (v : ℚ)
deriving DecidableEq

/-- The `campos` list built by the importer for an existing product. -/
def camposDe (f : Fila) : List Campo :=
  (match f.cantidad with | some v => [Campo.cantidad v] | none => []) ++
  (match f.stock_minimo with | some v => [Campo.stock_minimo v] | none => []) ++
  (match f.precio_costo with | some v => [Campo.precio_costo v] | none => []) ++
  (match f.proveedor with | some v => [Campo.proveedor v] | none => []) ++
  (match f.ganancia with | some v => [Campo.ganancia v] | none => [])

/-- Apply one `SET` assignment. -/
def aplicarCampo (p : Producto) : Campo → Producto
  | Campo.cantidad v => { p with cantidad := v }
  | Campo.stock_minimo v => { p with stock_minimo := v }
  | Campo.precio_costo v => { p with precio_costo := v }
  | Campo.proveedor v => { p with proveedor := v }
  | Campo.ganancia v => { p with ganancia := v }

/-- Apply the dynamic `UPDATE ... SET <campos> WHERE nombre=?` assignment
list to one row (an empty list means no `UPDATE` is executed, which is the
same as executing one with no assignments). -/
def aplicarCampos (p : Producto) (cs : List Campo) : Producto := cs.foldl aplicarCampo p

/-- One row's upsert: if a product with this name exists, update every row
with the name using only the provided fields; otherwise insert a new row with
`0` / `""` defaults for the unprovided fields. -/
def aplicarFila (ps : List Producto) (nextId : ℕ) (f : Fila) : List Producto × ℕ :=
  if ps.any (fun p => p.nombre == f.nombre) then
    (ps.map (fun p => if p.nombre == f.nombre then aplicarCampos p (camposDe f) else p), nextId)
  else
    (ps ++ [⟨nextId, f.nombre, f.cantidad.getD 0, f.stock_minimo.getD 0, f.precio_costo.getD 0,
      f.proveedor.getD "", f.ganancia.getD 0⟩], nextId + 1)

/-- The import batch over a sheet whose column names are already stripped
(`df.columns.str.strip()`): reject outright when the required `Nombre` column
is missing; otherwise process rows sequentially, counting successes and
per-row failures, and return the final table state committed once at the
end as `(productos, nextId, filas_ok, filas_err)`. -/
def importar_excel (cols : List String) (filas : List (List (String × Option String)))
    (ps : List Producto) (nextId : ℕ) :
    Except String (List Producto × ℕ × ℕ × ℕ) :=
  if "Nombre" ∈ cols then
    Except.ok (filas.foldl
      (fun st fila =>
        match coerceFila cols fila with
        | some f =>
          let res := aplicarFila st.1 st.2.1 f
          (res.1, res.2, st.2.2.1 + 1, st.2.2.2)
        | none => (st.1, st.2.1, st.2.2.1, st.2.2.2 + 1))
      (ps, nextId, 0, 0))
  else Except.error "El Excel debe contener al menos la columna Nombre"

/-! ## General export (`exportar_excel`, lines 440–468) -/

/-- Model of Python `str(x)` for the float cells the export writes: decimal
values `± n / 10^k` are rendered exactly in fixed-point decimal notation with
`q.den` fractional digits (for every decimal `q`, `q.den` divides
`10 ^ q.den`).  The model may pad fractional zeros; Python's
shortest-round-trip repr and this rendering parse back to the same value. -/
def renderQ (q : ℚ) : String :=
  let n := q.num.natAbs * 10 ^ q.den / q.den
  if q.num < 0 then "-" ++ decimalRender n q.den else decimalRender n q.den

/-- The exact column set and order of the general export, identical to the
importer's `columnas_validas`. -/
def columnasExport : List String :=
  ["Nombre", "Precio Costo", "% Ganancia", "Cantidad", "Stock Mínimo", "Proveedor"]

/-- The sheet row the general export writes for one product (no derived sale
price; `% Ganancia` is `p["ganancia"] or 0`). -/
def filaExport (p : Producto) : List (String × Option String) :=
  [("Nombre", some p.nombre),
   ("Precio Costo", some (renderQ p.precio_costo)),
   ("% Ganancia", some (renderQ (orCero p.ganancia))),
   ("Cantidad", some (intStr p.cantidad)),
   ("Stock Mínimo", some (intStr p.stock_minimo)),
   ("Proveedor", some p.proveedor)]

/-- `exportar_excel`: the general export sheet (header and rows). -/
def exportar_excel (ps : List Producto) : List String × List (List (String × Option String)) :=
  (columnasExport, ps.map filaExport)

/-- The resolved row the importer obtains from an export row of `p` whose
name and supplier carry no surrounding whitespace: every field provided. -/
def filaTipada (p : Producto) : Fila :=
  ⟨p.nombre, some p.cantidad, some p.stock_minimo, some p.precio_costo, some p.ganancia,
    some p.proveedor⟩

/-! ## Users and password change (`cambiar_password`, lines 497–528) -/

/-- One row of the `usuarios` table (`password` holds the hash). -/
structure Usuario where
  id : ℕ
  usuario : String
  password : String
deriving DecidableEq

/-- Deterministic idealization of werkzeug's salted
`generate_password_hash`: collision-free, opaque to everything but
`check_password_hash`. -/
def generate_password_hash (pw : String) : String := "pbkdf2:" ++ pw

/-- Idealized `check_password_hash`: succeeds exactly on the hashed
password. -/
def check_password_hash (h pw : String) : Bool := h == generate_password_hash pw

/-- The user table together with the Flask session (`session["usuario"]`). -/
structure EstadoApp where
  usuarios : List Usuario
  sesion : Option String
deriving DecidableEq

/-- The user-visible outcomes of the password-change route. -/
inductive RespuestaPassword where
  | redirigirLogin
  | errorNoCoinciden
  | errorActualIncorrecta
  | exito
deriving DecidableEq

/-- `cambiar_password` (POST body): require a session, require the new and
confirm fields to match, look the session user up (`fetchone`), require the
current password to verify, then rehash; every rejection leaves the table
untouched. -/
def cambiar_password (st : EstadoApp) (actual nueva confirmar : String) :
    EstadoApp × RespuestaPassword :=
  match st.sesion with
  | none => (st, RespuestaPassword.redirigirLogin)
  | some u =>
    if nueva ≠ confirmar then (st, RespuestaPassword.errorNoCoinciden)
    else
      match (st.usuarios.filter (fun r => r.usuario == u)).head? with
      | none => (st, RespuestaPassword.errorActualIncorrecta)
      | some user =>
        if ¬check_password_hash user.password actual then
          (st, RespuestaPassword.errorActualIncorrecta)
        else
          ({ st with
              usuarios := st.usuarios.map (fun r =>
                if r.usuario == u then { r with password := generate_password_hash nueva }
                else r) },
            RespuestaPassword.exito)

/-! ## Product create / edit forms (`agregar` lines 211–226, `editar` lines
228–249) -/

/-- The POST form fields of the create / edit pages (all raw text). -/
structure FormularioProducto where
  nombre : String
  cantidad : String
  stock_minimo : String
  precio_costo : String
  proveedor : String
  ganancia : String

/-- The `agregar` POST handler: `int(cantidad)`, `int(stock_minimo)`,
`normalizar_precio(precio_costo)`, `float(ganancia.replace(',', '.'))`, then
insert.  `none` models an uncaught `ValueError` propagating to Flask. -/
def agregar (form : FormularioProducto) (ps : List Producto) (nextId : ℕ) :
    Option (List Producto × ℕ) := do
  let cantidad ← parseEnteroPy form.cantidad
  let stock ← parseEnteroPy form.stock_minimo
  let precio := normalizar_precio form.precio_costo
  let ganancia ← parseFlotantePy (reemplazarComaPunto form.ganancia)
  some (ps ++ [⟨nextId, form.nombre, cantidad, stock, precio, form.proveedor, ganancia⟩],
    nextId + 1)

/-- The `editar` POST handler for an existing id (the route 404s before this
point when the id is absent, in which case the map below is a no-op anyway):
same conversions as `agregar`, then `UPDATE ... WHERE id=?`. -/
def editar (id : ℕ) (form : FormularioProducto) (ps : List Producto) :
    Option (List Producto) := do
  let cantidad ← parseEnteroPy form.cantidad
  let stock ← parseEnteroPy form.stock_minimo
  let precio := normalizar_precio form.precio_costo
  let ganancia ← parseFlotantePy (reemplazarComaPunto form.ganancia)
  some (ps.map (fun p =>
    if p.id = id then ⟨id, form.nombre, cantidad, stock, precio, form.proveedor, ganancia⟩
    else p))

/-! ## Digit arithmetic lemmas -/

theorem digitsVal_foldl (l : List Char) (acc : ℕ) :
    l.foldl (fun a c => 10 * a + digitVal c) acc = acc * 10 ^ l.length + digitsVal l := by
  induction l generalizing acc with
  | nil => simp [digitsVal]
  | cons c t ih =>
    simp only [List.foldl_cons, List.length_cons, digitsVal]
    rw [ih (10 * acc + digitVal c), ih (10 * 0 + digitVal c)]
    ring

theorem digitsVal_append (a b : List Char) :
    digitsVal (a ++ b) = digitsVal a * 10 ^ b.length + digitsVal b := by
  simp only [digitsVal, List.foldl_append]
  rw [digitsVal_foldl]
  rfl

theorem digitsVal_replicate_zero (j : ℕ) (t : List Char) :
    digitsVal (List.replicate j '0' ++ t) = digitsVal t := by
  induction j with
  | zero => rfl
  | succ m ih => simpa [List.replicate_succ, digitsVal, digitVal] using ih

theorem digitChar_isDigit (d : ℕ) : (digitChar d).isDigit = true := by
  unfold digitChar
  split <;> decide

theorem digitVal_digitChar (d : ℕ) (h : d < 10) : digitVal (digitChar d) = d := by
  interval_cases d <;> decide

theorem natDigitsAux_spec (fuel : ℕ) :
    ∀ n, n < fuel →
      (∀ c ∈ natDigitsAux fuel n, c.isDigit = true) ∧ natDigitsAux fuel n ≠ [] ∧
        digitsVal (natDigitsAux fuel n) = n := by
  induction fuel with
  | zero => intro n hn; omega
  | succ f ih =>
    intro n hn
    rw [natDigitsAux]
    split_ifs with h
    · refine ⟨?_, by simp, ?_⟩
      · intro c hc
        simp only [List.mem_singleton] at hc
        subst hc
        exact digitChar_isDigit n
      · simp [digitsVal, digitVal_digitChar n h]
    · have hdiv : n / 10 < n :=
        Nat.div_lt_self (Nat.lt_of_lt_of_le (by norm_num) (Nat.le_of_not_lt h)) (by norm_num)
      obtain ⟨hd, hne, hv⟩ := ih (n / 10) (by omega)
      refine ⟨?_, by simp, ?_⟩
      · intro c hc
        rcases List.mem_append.mp hc with hc | hc
        · exact hd c hc
        · simp only [List.mem_singleton] at hc
          subst hc
          exact digitChar_isDigit _
      · rw [digitsVal_append, hv]
        simp only [List.length_singleton, pow_one, digitsVal, List.foldl_cons, List.foldl_nil,
          Nat.mul_zero, Nat.zero_add]
        rw [digitVal_digitChar _ (Nat.mod_lt n (by norm_num))]
        have := Nat.div_add_mod n 10
        omega

theorem natDigits_spec (n : ℕ) :
    (∀ c ∈ natDigits n, c.isDigit = true) ∧ natDigits n ≠ [] ∧ digitsVal (natDigits n) = n :=
  natDigitsAux_spec (n + 1) n (Nat.lt_succ_self n)

theorem natDigitsAux_length_le (fuel : ℕ) :
    ∀ k n, n < fuel → n < 10 ^ k → 1 ≤ k → (natDigitsAux fuel n).length ≤ k := by
  induction fuel with
  | zero => intro k n hn; omega
  | succ f ih =>
    intro k n hfuel hn hk
    rw [natDigitsAux]
    split_ifs with h
    · simpa using hk
    · obtain ⟨m, rfl⟩ : ∃ m, k = m + 1 := ⟨k - 1, by omega⟩
      have hm : 1 ≤ m := by
        by_contra hm
        have : m = 0 := by omega
        subst this
        norm_num at hn
        omega
      have hdivn : n / 10 < n :=
        Nat.div_lt_self (Nat.lt_of_lt_of_le (by norm_num) (Nat.le_of_not_lt h)) (by norm_num)
      have hdiv : n / 10 < 10 ^ m := by
        have h2 : n < 10 ^ m * 10 := by
          rw [← pow_succ]
          exact hn
        exact Nat.div_lt_of_lt_mul (by omega)
      have := ih m (n / 10) (by omega) hdiv hm
      simp only [List.length_append, List.length_singleton]
      omega

theorem natDigits_length_le (k : ℕ) (n : ℕ) (hn : n < 10 ^ k) (hk : 1 ≤ k) :
    (natDigits n).length ≤ k :=
  natDigitsAux_length_le (n + 1) k n (Nat.lt_succ_self n) hn hk

/-! ## Behaviour of the normalizer pipeline on plain decimal strings -/

theorem digit_beq_dot (c : Char) (h : c.isDigit = true) : (c == '.') = false := by
  cases hc : c == '.' with
  | false => rfl
  | true =>
    have : c = '.' := eq_of_beq hc
    subst this
    exact absurd h (by decide)

theorem digit_beq_comma (c : Char) (h : c.isDigit = true) : (c == ',') = false := by
  cases hc : c == ',' with
  | false => rfl
  | true =>
    have : c = ',' := eq_of_beq hc
    subst this
    exact absurd h (by decide)

theorem takeWhile_digits_dot (I F : List Char) (hI : ∀ c ∈ I, c.isDigit = true) :
    (I ++ '.' :: F).takeWhile (fun c => !(c == '.')) = I := by
  induction I with
  | nil => simp [List.takeWhile_cons]
  | cons c t ih =>
    have hc := hI c (List.mem_cons_self c t)
    rw [List.cons_append, List.takeWhile_cons]
    simp only [digit_beq_dot c hc, Bool.not_false, if_true]
    rw [ih (fun x hx => hI x (List.mem_cons_of_mem c hx))]

theorem dropWhile_digits_dot (I F : List Char) (hI : ∀ c ∈ I, c.isDigit = true) :
    (I ++ '.' :: F).dropWhile (fun c => !(c == '.')) = '.' :: F := by
  induction I with
  | nil => simp [List.dropWhile_cons]
  | cons c t ih =>
    have hc := hI c (List.mem_cons_self c t)
    rw [List.cons_append, List.dropWhile_cons]
    simp only [digit_beq_dot c hc, Bool.not_false, if_true]
    exact ih (fun x hx => hI x (List.mem_cons_of_mem c hx))

theorem dot_not_mem_digits (I : List Char) (hI : ∀ c ∈ I, c.isDigit = true) : '.' ∉ I := by
  intro hmem
  exact absurd (hI '.' hmem) (by decide)

theorem count_dot_decimal (I F : List Char) (hI : ∀ c ∈ I, c.isDigit = true)
    (hF : ∀ c ∈ F, c.isDigit = true) : (I ++ '.' :: F).count '.' = 1 := by
  rw [List.count_append, List.count_cons]
  have h1 : I.count '.' = 0 := List.count_eq_zero.mpr (dot_not_mem_digits I hI)
  have h2 : F.count '.' = 0 := List.count_eq_zero.mpr (dot_not_mem_digits F hF)
  simp [h1, h2]

theorem floatVal?_decimal (I F : List Char) (hI : ∀ c ∈ I, c.isDigit = true)
    (hF : ∀ c ∈ F, c.isDigit = true) (hne : I ≠ []) :
    floatVal? (I ++ '.' :: F) =
      some (mkRat (digitsVal I * 10 ^ F.length + digitsVal F) (10 ^ F.length)) := by
  have hall : ((I ++ '.' :: F).all fun c => c.isDigit || c == '.') = true := by
    simp only [List.all_append, List.all_cons, Bool.and_eq_true, List.all_eq_true]
    refine ⟨fun c hc => by simp [hI c hc], by simp, fun c hc => by simp [hF c hc]⟩
  have hcount := count_dot_decimal I F hI hF
  have hany : ((I ++ '.' :: F).any fun c => c.isDigit) = true := by
    obtain ⟨c, t, rfl⟩ := List.exists_cons_of_ne_nil hne
    simp [hI c (List.mem_cons_self c t)]
  unfold floatVal?
  rw [takeWhile_digits_dot I F hI, dropWhile_digits_dot I F hI]
  simp [hall, hcount, hany]

/-! ## The cleaning pass absorbs stripping and is idempotent -/

theorem ws_cases (c : Char) (h : c.isWhitespace = true) :
    c = ' ' ∨ c = '\t' ∨ c = '\r' ∨ c = '\n' := by
  simp only [Char.isWhitespace, Bool.or_eq_true, decide_eq_true_eq] at h
  tauto

theorem ws_not_precio (c : Char) (h : c.isWhitespace = true) : esPrecioChar c = false := by
  rcases ws_cases c h with rfl | rfl | rfl | rfl <;> decide

theorem filter_dropWhile (w p : Char → Bool) (hwp : ∀ c, w c = true → p c = false) :
    ∀ l : List Char, (l.dropWhile w).filter p = l.filter p := by
  intro l
  induction l with
  | nil => rfl
  | cons c t ih =>
    rw [List.dropWhile_cons]
    split_ifs with hw
    · rw [ih, List.filter_cons]
      simp [hwp c hw]
    · rfl

theorem limpiar_strip (l : List Char) : limpiar (strip l) = limpiar l := by
  unfold limpiar strip
  rw [List.filter_reverse, filter_dropWhile _ _ ws_not_precio, List.filter_reverse,
    List.reverse_reverse, filter_dropWhile _ _ ws_not_precio]

theorem limpiar_idem (l : List Char) : limpiar (limpiar l) = limpiar l := by
  simp [limpiar, List.filter_filter, Bool.and_self]

theorem normalizarLista_eq (l : List Char) :
    normalizarLista l = (floatVal? (comaADecimal (colapsarPuntos (limpiar l)))).getD 0 := by
  unfold normalizarLista
  rw [limpiar_strip]

theorem not_ws_of_precio (c : Char) (h : esPrecioChar c = true) : c.isWhitespace = false := by
  cases hw : c.isWhitespace with
  | false => rfl
  | true => rw [ws_not_precio c hw] at h; cases h

theorem dropWhile_eq_self_of (p : Char → Bool) (l : List Char) (h : ∀ c ∈ l, p c = false) :
    l.dropWhile p = l := by
  cases l with
  | nil => rfl
  | cons c t => rw [List.dropWhile_cons, h c (List.mem_cons_self c t)]; simp

theorem strip_eq_self (l : List Char) (h : ∀ c ∈ l, c.isWhitespace = false) : strip l = l := by
  unfold strip
  rw [dropWhile_eq_self_of _ _ h, dropWhile_eq_self_of _ _ (fun c hc => h c (List.mem_reverse.mp hc)),
    List.reverse_reverse]

theorem comma_not_mem_digits_dot (I F : List Char) (hI : ∀ c ∈ I, c.isDigit = true)
    (hF : ∀ c ∈ F, c.isDigit = true) : (I ++ '.' :: F).contains ',' = false := by
  rw [List.contains_eq_any_beq]
  simp only [List.any_eq_false, List.mem_append, List.mem_cons]
  rintro c (hc | rfl | hc)
  · intro hbeq
    have := hI c hc
    rw [← eq_of_beq hbeq] at this
    exact absurd this (by decide)
  · decide
  · intro hbeq
    have := hF c hc
    rw [← eq_of_beq hbeq] at this
    exact absurd this (by decide)

/-- On a plain decimal string `I.F` (digit lists `I ≠ []`, `F`) the whole
normalizer pipeline is the identity followed by the parse. -/
theorem normalizarLista_decimal (I F : List Char) (hI : ∀ c ∈ I, c.isDigit = true)
    (hF : ∀ c ∈ F, c.isDigit = true) (hne : I ≠ []) :
    normalizarLista (I ++ '.' :: F) =
      mkRat (digitsVal I * 10 ^ F.length + digitsVal F) (10 ^ F.length) := by
  have hprecio : ∀ c ∈ I ++ '.' :: F, esPrecioChar c = true := by
    intro c hc
    rcases List.mem_append.mp hc with hc | hc
    · simp [esPrecioChar, hI c hc]
    · rcases List.mem_cons.mp hc with rfl | hc
      · decide
      · simp [esPrecioChar, hF c hc]
  have hclean : limpiar (I ++ '.' :: F) = I ++ '.' :: F := List.filter_eq_self.mpr hprecio
  have hstrip : strip (I ++ '.' :: F) = I ++ '.' :: F :=
    strip_eq_self _ (fun c hc => not_ws_of_precio c (hprecio c hc))
  have hcol : colapsarPuntos (I ++ '.' :: F) = I ++ '.' :: F := by
    unfold colapsarPuntos
    rw [count_dot_decimal I F hI hF]
    simp
  have hcoma : comaADecimal (I ++ '.' :: F) = I ++ '.' :: F := by
    unfold comaADecimal
    rw [comma_not_mem_digits_dot I F hI hF]
    simp
  unfold normalizarLista
  rw [hstrip, hclean, hcol, hcoma, floatVal?_decimal I F hI hF hne]
  rfl

/-- Normalizing the rendered decimal `decimalRender n k` recovers exactly the
value `n / 10^k`. -/
theorem normalizar_decimalRender (n k : ℕ) :
    normalizar_precio (decimalRender n k) = (n : ℚ) / 10 ^ k := by
  obtain ⟨hId, hIne, hIv⟩ := natDigits_spec (n / 10 ^ k)
  obtain ⟨hdd, hdne, hdv⟩ := natDigits_spec (n % 10 ^ k)
  set I := natDigits (n / 10 ^ k) with hIdef
  set ds := natDigits (n % 10 ^ k) with hdsdef
  set F := List.replicate (k - ds.length) '0' ++ ds with hFdef
  have hFd : ∀ c ∈ F, c.isDigit = true := by
    intro c hc
    rcases List.mem_append.mp hc with hc | hc
    · rw [List.eq_of_mem_replicate hc]; decide
    · exact hdd c hc
  have hdata : (decimalRender n k).data = I ++ '.' :: F := rfl
  have hne2 : ¬((decimalRender n k).data = []) := by
    rw [hdata]
    cases I <;> simp
  have hFv : digitsVal F = n % 10 ^ k := by
    rw [hFdef, digitsVal_replicate_zero, hdv]
  unfold normalizar_precio
  rw [if_neg hne2, hdata, normalizarLista_decimal I F hId hFd hIne, hIv, hFv]
  by_cases hk : k = 0
  · subst hk
    have hds1 : ds.length = 1 := by
      rw [hdsdef]
      norm_num [Nat.mod_one]
      decide
    have hFlen : F.length = 1 := by
      rw [hFdef, List.length_append, List.length_replicate, hds1]
    rw [hFlen]
    simp only [pow_zero, pow_one, Nat.div_one, Nat.mod_one]
    rw [Rat.mkRat_eq_div]
    push_cast
    field_simp
  · have hk1 : 1 ≤ k := by omega
    have hlen : ds.length ≤ k :=
      natDigits_length_le k _ (Nat.mod_lt n (pow_pos (by norm_num) k)) hk1
    have hFlen : F.length = k := by
      rw [hFdef, List.length_append, List.length_replicate]
      omega
    rw [hFlen]
    have harg : n / 10 ^ k * 10 ^ k + n % 10 ^ k = n := by
      rw [Nat.mul_comm]
      exact Nat.div_add_mod n (10 ^ k)
    have hargZ : ((n / 10 ^ k : ℕ) : ℤ) * 10 ^ k + ((n % 10 ^ k : ℕ) : ℤ) = (n : ℤ) := by
      exact_mod_cast harg
    rw [hargZ, Rat.mkRat_eq_div]
    push_cast
    ring

/-- Every value the parse step returns has the decimal shape `n / 10^k`. -/
theorem floatVal?_shape (l : List Char) (q : ℚ) (h : floatVal? l = some q) :
    ∃ n k : ℕ, q = (n : ℚ) / 10 ^ k := by
  unfold floatVal? at h
  split_ifs at h with hg
  simp only [Option.some_inj] at h
  refine ⟨digitsVal (List.takeWhile (fun c => !(c == '.')) l) *
      10 ^ (List.drop 1 (List.dropWhile (fun c => !(c == '.')) l)).length +
      digitsVal (List.drop 1 (List.dropWhile (fun c => !(c == '.')) l)),
    (List.drop 1 (List.dropWhile (fun c => !(c == '.')) l)).length, ?_⟩
  rw [← h, Rat.mkRat_eq_div]
  push_cast
  rfl

/-- Every normalizer output has the decimal shape `n / 10^k`. -/
theorem normalizar_shape (s : String) :
    ∃ n k : ℕ, normalizar_precio s = (n : ℚ) / 10 ^ k := by
  unfold normalizar_precio
  split_ifs with hs
  · exact ⟨0, 0, by norm_num⟩
  · rw [normalizarLista_eq]
    cases hf : floatVal? (comaADecimal (colapsarPuntos (limpiar s.data))) with
    | none => exact ⟨0, 0, by norm_num⟩
    | some q =>
      obtain ⟨n, k, hq⟩ := floatVal?_shape _ q hf
      exact ⟨n, k, by simp [hq]⟩

/-- Stripping the non-price characters first does not change the result:
together with the concrete evaluations this captures step 2 of the contract. -/
theorem normalizar_precio_limpiar (s : String) :
    normalizar_precio s = normalizar_precio (String.mk (limpiar s.data)) := by
  unfold normalizar_precio
  by_cases h1 : s.data = []
  · rw [if_pos h1]
    rw [show (String.mk (limpiar s.data)).data = limpiar s.data from rfl, h1]
    rfl
  · rw [if_neg h1]
    by_cases h2 : limpiar s.data = []
    · rw [show (String.mk (limpiar s.data)).data = limpiar s.data from rfl, if_pos h2,
        normalizarLista_eq, h2]
      rfl
    · rw [show (String.mk (limpiar s.data)).data = limpiar s.data from rfl, if_neg h2,
        normalizarLista_eq, normalizarLista_eq, limpiar_idem]

/-- C1. The price normalizer: empty input gives `0.0`; all characters other
than digits, comma and period are irrelevant (normalizing the pre-cleaned
string gives the same value); whenever the parse step fails the result is
`0.0` (the function is total, so it never raises); and on the spec's reference
inputs `normalize("47.473,63") = 47473.63`, `normalize("47473.63") = 47473.63`
(with the multi-period case `"47.473.63"` also giving `47473.63` per the
docstring), `normalize("") = 0.0`, `normalize("abc") = 0.0`. -/
theorem normalizar_precio_contract :
    (∀ s : String, normalizar_precio s = normalizar_precio (String.mk (limpiar s.data)))
    ∧ (∀ s : String, floatVal? (comaADecimal (colapsarPuntos (limpiar s.data))) = none →
        normalizar_precio s = 0)
    ∧ normalizar_precio "47.473,63" = 47473.63
    ∧ normalizar_precio "47473.63" = 47473.63
    ∧ normalizar_precio "47.473.63" = 47473.63
    ∧ normalizar_precio "" = 0
    ∧ normalizar_precio "abc" = 0 := by
  refine ⟨normalizar_precio_limpiar, fun s hs => ?_, ?_, ?_, ?_, by decide, by decide⟩
  · unfold normalizar_precio
    split_ifs with h1
    · rfl
    · rw [normalizarLista_eq, hs]
      rfl
  · have h : normalizar_precio "47.473,63" = mkRat 4747363 100 := by decide
    rw [h, Rat.mkRat_eq_div]
    norm_num
  · have h : normalizar_precio "47473.63" = mkRat 4747363 100 := by decide
    rw [h, Rat.mkRat_eq_div]
    norm_num
  · have h : normalizar_precio "47.473.63" = mkRat 4747363 100 := by decide
    rw [h, Rat.mkRat_eq_div]
    norm_num

/-- Witness for the hypothesis-bearing part of the C1 theorem, at `"abc"`. -/
theorem normalizar_precio_contract_witness :
    floatVal? (comaADecimal (colapsarPuntos (limpiar "abc".data))) = none ∧
      normalizar_precio "abc" = 0 :=
  ⟨by decide, normalizar_precio_contract.2.1 "abc" (by decide)⟩

/-- C8. Idempotence on rendered output: every normalizer result has the exact
decimal shape `n / 10^k`, and normalizing the rendering of that value gives
the same value back; moreover a comma always wins as the decimal marker:
`"1.234,56"` parses to `1234.56` while the unsupported `"1,234.56"` style is
read with the comma as the decimal point, yielding `1.23456`. -/
theorem normalizar_precio_idempotente :
    (∀ s : String, ∃ n k : ℕ, normalizar_precio s = (n : ℚ) / 10 ^ k ∧
        normalizar_precio (decimalRender n k) = normalizar_precio s)
    ∧ normalizar_precio "1.234,56" = 1234.56
    ∧ normalizar_precio "1,234.56" = 1.23456 := by
  refine ⟨fun s => ?_, ?_, ?_⟩
  · obtain ⟨n, k, h⟩ := normalizar_shape s
    exact ⟨n, k, h, by rw [normalizar_decimalRender, h]⟩
  · have h : normalizar_precio "1.234,56" = mkRat 123456 100 := by decide
    rw [h, Rat.mkRat_eq_div]
    norm_num
  · have h : normalizar_precio "1,234.56" = mkRat 123456 100000 := by decide
    rw [h, Rat.mkRat_eq_div]
    norm_num

/-! ## C2: pricing computation -/

/-- C2. The `/inventario` computation: the rows are the sale-price views of
the stored products, restricted by the case-insensitive substring filter
(against name or supplier) whenever the query is non-empty; the three
aggregates are computed over exactly those filtered rows, with
`total_costo = Σ cantidad·precio_costo`, `total_venta = Σ cantidad·precio_venta`
and `ganancia = total_venta - total_costo`; a product with cost 100 and
markup 20 gets sale price 120; and an empty product list yields `([],0,0,0)`. -/
theorem inventario_contract :
    (∀ q ps,
      (inventario q ps).1 =
        (if (lowerStr q).data = [] then ps.map vistaDe
         else (ps.map vistaDe).filter (coincideFiltro (lowerStr q)))
      ∧ (inventario q ps).2.1 =
        ((inventario q ps).1.map (fun p => (p.cantidad : ℚ) * p.precio_costo)).sum
      ∧ (inventario q ps).2.2.1 =
        ((inventario q ps).1.map (fun p => (p.cantidad : ℚ) * p.precio_venta)).sum
      ∧ (inventario q ps).2.2.2 = (inventario q ps).2.2.1 - (inventario q ps).2.1)
    ∧ (∀ id nom cant sm prov,
        (vistaDe ⟨id, nom, cant, sm, 100, prov, 20⟩).precio_venta = 120)
    ∧ (∀ q, inventario q [] = ([], 0, 0, 0))
    ∧ (∀ q ps, (inventario q ps).1 = [] →
        (inventario q ps).2.1 = 0 ∧ (inventario q ps).2.2.1 = 0 ∧
          (inventario q ps).2.2.2 = 0) := by
  refine ⟨fun q ps => ⟨rfl, rfl, rfl, rfl⟩, fun id nom cant sm prov => ?_, fun q => ?_,
    fun q ps h => ?_⟩
  · show (100 : ℚ) * (1 + orCero 20 / 100) = 120
    norm_num [orCero]
  · unfold inventario
    simp
  · have h1 : (inventario q ps).2.1 =
        ((inventario q ps).1.map (fun p => (p.cantidad : ℚ) * p.precio_costo)).sum := rfl
    have h2 : (inventario q ps).2.2.1 =
        ((inventario q ps).1.map (fun p => (p.cantidad : ℚ) * p.precio_venta)).sum := rfl
    have h3 : (inventario q ps).2.2.2 = (inventario q ps).2.2.1 - (inventario q ps).2.1 := rfl
    exact ⟨by rw [h1, h]; simp, by rw [h2, h]; simp, by rw [h3, h2, h1, h]; simp⟩

/-- Witness for C2's filtered-out-list part, at a query matching nothing. -/
theorem inventario_contract_witness :
    (inventario "zz" [⟨1, "Yerba", 3, 1, 100, "Prov", 20⟩]).1 = [] ∧
      (inventario "zz" [⟨1, "Yerba", 3, 1, 100, "Prov", 20⟩]).2.1 = 0 :=
  ⟨by decide, (inventario_contract.2.2.2 "zz" _ (by decide)).1⟩

/-! ## C3: the sell operation -/

theorem zip_map_snd {α β : Type} (f : α → β) (l : List α) :
    ∀ par ∈ l.zip (l.map f), par.2 = f par.1 := by
  induction l with
  | nil => simp
  | cons a t ih =>
    intro par hpar
    rw [List.map_cons, List.zip_cons_cons] at hpar
    rcases List.mem_cons.mp hpar with rfl | hpar
    · rfl
    · exact ih par hpar

/-- C3. The sell operation is the single conditional update
`SET cantidad = cantidad - c WHERE nombre = n AND cantidad >= c`: rows
matching the guard are decremented, all other rows (wrong name or
insufficient stock) are left exactly unchanged, selling exactly the available
stock brings it to 0, and if no stored quantity was negative before, none is
negative after. -/
theorem vender_contract (nombre : String) (c : ℤ) (ps : List Producto) (hc : 0 < c) :
    (vender nombre c ps).length = ps.length
    ∧ (∀ par ∈ ps.zip (vender nombre c ps),
        (par.1.nombre = nombre ∧ c ≤ par.1.cantidad →
          par.2 = { par.1 with cantidad := par.1.cantidad - c })
        ∧ (¬(par.1.nombre = nombre ∧ c ≤ par.1.cantidad) → par.2 = par.1)
        ∧ (par.1.nombre = nombre → par.1.cantidad = c → par.2.cantidad = 0))
    ∧ ((∀ p ∈ ps, 0 ≤ p.cantidad) → ∀ p ∈ vender nombre c ps, 0 ≤ p.cantidad) := by
  refine ⟨by simp [vender], fun par hpar => ?_, fun h0 p hp => ?_⟩
  · have h2 : par.2 =
        if par.1.nombre = nombre ∧ c ≤ par.1.cantidad then
          { par.1 with cantidad := par.1.cantidad - c }
        else par.1 :=
      zip_map_snd
        (fun p => if p.nombre = nombre ∧ c ≤ p.cantidad then
          { p with cantidad := p.cantidad - c } else p) ps par
        (show par ∈ ps.zip (ps.map (fun p =>
            if p.nombre = nombre ∧ c ≤ p.cantidad then
              { p with cantidad := p.cantidad - c } else p)) from hpar)
    refine ⟨fun hyes => ?_, fun hno => ?_, fun hn hexact => ?_⟩
    · rw [h2, if_pos hyes]
    · rw [h2, if_neg hno]
    · rw [h2, if_pos ⟨hn, le_of_eq hexact.symm⟩]
      simp [hexact]
  · rcases List.mem_map.mp hp with ⟨a, ha, rfl⟩
    split_ifs with hcond
    · show (0 : ℤ) ≤ a.cantidad - c
      omega
    · exact h0 a ha

/-- Witness for C3: selling exactly the stock of a one-product store. -/
theorem vender_contract_witness :
    (vender "A" 2 [⟨1, "A", 2, 0, 0, "P", 0⟩]).length = 1 :=
  (vender_contract "A" 2 [⟨1, "A", 2, 0, 0, "P", 0⟩] (by norm_num)).1

/-! ## C4: the reorder generator -/

theorem agregarLinea_keys (A : List (String × List LineaPedido)) (prov : String) (l : LineaPedido) :
    (agregarLinea A prov l).map Prod.fst =
      if prov ∈ A.map Prod.fst then A.map Prod.fst else A.map Prod.fst ++ [prov] := by
  induction A with
  | nil => simp [agregarLinea]
  | cons kv t ih =>
    obtain ⟨k, ls⟩ := kv
    by_cases hk : k = prov
    · subst hk
      rw [show agregarLinea ((k, ls) :: t) k l = (k, ls ++ [l]) :: t from by
        simp [agregarLinea]]
      simp
    · rw [show agregarLinea ((k, ls) :: t) prov l = (k, ls) :: agregarLinea t prov l from by
        simp [agregarLinea, hk]]
      simp only [List.map_cons, ih]
      by_cases hm : prov ∈ List.map Prod.fst t
      · rw [if_pos hm, if_pos (by simp [hm])]
      · rw [if_neg hm, if_neg (by
          intro hcon
          rcases List.mem_cons.mp hcon with h | h
          · exact hk h.symm
          · exact hm h)]
        simp

theorem agregarLinea_lookup_self (A : List (String × List LineaPedido)) (prov : String)
    (l : LineaPedido) :
    (agregarLinea A prov l).lookup prov = some (((A.lookup prov).getD []) ++ [l]) := by
  induction A with
  | nil => simp [agregarLinea, List.lookup]
  | cons kv t ih =>
    obtain ⟨k, ls⟩ := kv
    simp only [agregarLinea]
    split_ifs with hk
    · subst hk
      simp [List.lookup_cons]
    · have hbeq : (prov == k) = false := beq_eq_false_iff_ne.mpr (fun h => hk h.symm)
      simp [List.lookup_cons, hbeq, ih]

theorem agregarLinea_lookup_other (A : List (String × List LineaPedido)) (prov : String)
    (l : LineaPedido) (q : String) (hq : q ≠ prov) :
    (agregarLinea A prov l).lookup q = A.lookup q := by
  induction A with
  | nil => simp [agregarLinea, List.lookup, beq_eq_false_iff_ne.mpr hq]
  | cons kv t ih =>
    obtain ⟨k, ls⟩ := kv
    simp only [agregarLinea]
    split_ifs with hk
    · subst hk
      simp [List.lookup_cons, beq_eq_false_iff_ne.mpr hq]
    · cases hqk : q == k with
      | true => simp [List.lookup_cons, hqk]
      | false => simp [List.lookup_cons, hqk, ih]

theorem generar_pedidos_keys_aux (ps : List Producto) :
    ∀ A : List (String × List LineaPedido),
      (ps.foldl (fun pedidos p =>
        if conFaltante p then agregarLinea pedidos p.proveedor (lineaDe p) else pedidos) A).map
          Prod.fst =
        ((ps.filter conFaltante).map Producto.proveedor).foldl
          (fun acc x => if x ∈ acc then acc else acc ++ [x]) (A.map Prod.fst) := by
  induction ps with
  | nil => intro A; rfl
  | cons p t ih =>
    intro A
    rw [List.foldl_cons, List.filter_cons]
    by_cases hf : conFaltante p
    · simp only [hf, if_true, List.map_cons, List.foldl_cons]
      rw [ih, agregarLinea_keys]
    · simp only [hf, Bool.false_eq_true, if_false]
      exact ih A

theorem generar_pedidos_lookup_aux (ps : List Producto) :
    ∀ (A : List (String × List LineaPedido)) (prov : String),
      (ps.foldl (fun pedidos p =>
        if conFaltante p then agregarLinea pedidos p.proveedor (lineaDe p) else pedidos) A).lookup
          prov =
        if bucketDe ps prov = [] then A.lookup prov
        else some ((A.lookup prov).getD [] ++ bucketDe ps prov) := by
  induction ps with
  | nil => intro A prov; rfl
  | cons p t ih =>
    intro A prov
    rw [List.foldl_cons]
    by_cases hf : conFaltante p
    · by_cases hp : p.proveedor = prov
      · have hbucket : bucketDe (p :: t) prov = lineaDe p :: bucketDe t prov := by
          unfold bucketDe
          rw [List.filter_cons, if_pos hf, List.filter_cons,
            if_pos (by simp [hp]), List.map_cons]
        simp only [hf, if_true]
        rw [ih, hbucket]
        subst hp
        rw [agregarLinea_lookup_self]
        by_cases hb : bucketDe t p.proveedor = []
        · rw [if_pos hb, if_neg (by simp), hb]
        · rw [if_neg hb, if_neg (by simp)]
          simp
      · have hbucket : bucketDe (p :: t) prov = bucketDe t prov := by
          unfold bucketDe
          rw [List.filter_cons, if_pos hf, List.filter_cons, if_neg (by simp [hp])]
        simp only [hf, if_true]
        rw [ih, hbucket, agregarLinea_lookup_other _ _ _ _ (fun h => hp h.symm)]
    · have hbucket : bucketDe (p :: t) prov = bucketDe t prov := by
        unfold bucketDe
        rw [List.filter_cons, if_neg (by simp [hf])]
      simp only [hf, Bool.false_eq_true, if_false]
      rw [ih, hbucket]

/-- C4. The reorder generator over any product list: its supplier keys are
exactly the suppliers of the products with `stock_minimo - cantidad > 0`, in
first-seen order; the bucket of each supplier is precisely its shortfall
lines `(faltante, nombre, precio_costo)` in list order, and a supplier
without shortfall lines is absent (`lookup` yields `none`); when no product
has a shortfall the mapping is empty; and each supplier message is the
percent-encoded header plus one `- <faltante> <nombre>` line per product, as
evaluated on a concrete example. -/
theorem generar_pedidos_contract (ps : List Producto) :
    ((generar_pedidos ps).map Prod.fst =
      primerasApariciones ((ps.filter conFaltante).map Producto.proveedor))
    ∧ (∀ prov, (generar_pedidos ps).lookup prov =
        if bucketDe ps prov = [] then none else some (bucketDe ps prov))
    ∧ ((∀ p ∈ ps, ¬(p.stock_minimo - p.cantidad > 0)) → generar_pedidos ps = [])
    ∧ generar_mensaje_whatsapp "ACME" [⟨5, "Yerba", 100⟩] =
        "%F0%9F%93%A6%20%2APedido%20para%20ACME%2A%20%F0%9F%93%A6%0A%0A-%205%20Yerba%0A" := by
  refine ⟨generar_pedidos_keys_aux ps [], fun prov => ?_, fun hno => ?_, by decide⟩
  · have h := generar_pedidos_lookup_aux ps [] prov
    unfold generar_pedidos
    rw [h]
    by_cases hb : bucketDe ps prov = []
    · rw [if_pos hb, if_pos hb]
      rfl
    · rw [if_neg hb, if_neg hb]
      simp [List.lookup]
  · have hfil : ps.filter conFaltante = [] := by
      rw [List.filter_eq_nil]
      intro p hp
      have := hno p hp
      simp [conFaltante]
      omega
    have hkeys := generar_pedidos_keys_aux ps []
    rw [hfil] at hkeys
    exact List.map_eq_nil.mp hkeys

/-- Witness for C4's empty-mapping part: a product at or above its minimum
yields no order. -/
theorem generar_pedidos_contract_witness :
    generar_pedidos [⟨1, "A", 5, 3, 0, "P", 0⟩] = [] :=
  (generar_pedidos_contract [⟨1, "A", 5, 3, 0, "P", 0⟩]).2.2.1 (by decide)

/-! ## C5: import upsert semantics -/

/-- The dynamic `SET` list applies exactly the provided fields and keeps the
stored value of every unprovided one. -/
theorem aplicarCampos_camposDe (p : Producto) (f : Fila) :
    aplicarCampos p (camposDe f) =
      ⟨p.id, p.nombre, f.cantidad.getD p.cantidad, f.stock_minimo.getD p.stock_minimo,
        f.precio_costo.getD p.precio_costo, f.proveedor.getD p.proveedor,
        f.ganancia.getD p.ganancia⟩ := by
  obtain ⟨nom, c, s, pc, g, pr⟩ := f
  cases c <;> cases s <;> cases pc <;> cases g <;> cases pr <;> rfl

theorem campoEntero_not_provided (cols : List String) (fila : List (String × Option String))
    (col : String) (h : col ∉ cols ∨ celda fila col = none) :
    campoEntero cols fila col = some none := by
  unfold campoEntero
  rcases h with h | h
  · rw [if_neg h]
  · split_ifs with hmem
    · rw [h]
    · rfl

theorem coerceFila_inv (cols : List String) (fila : List (String × Option String)) (f : Fila)
    (h : coerceFila cols fila = some f) :
    campoEntero cols fila "Cantidad" = some f.cantidad
    ∧ campoEntero cols fila "Stock Mínimo" = some f.stock_minimo
    ∧ campoFlotante cols fila "Precio Costo" = some f.precio_costo
    ∧ campoFlotante cols fila "% Ganancia" = some f.ganancia
    ∧ f.nombre = nombreDe fila
    ∧ f.proveedor = campoTexto cols fila "Proveedor" := by
  unfold coerceFila at h
  rcases hc : campoEntero cols fila "Cantidad" with _ | c <;> rw [hc] at h
  · simp at h
  rcases hs : campoEntero cols fila "Stock Mínimo" with _ | s <;> rw [hs] at h
  · simp at h
  rcases hpc : campoFlotante cols fila "Precio Costo" with _ | pc <;> rw [hpc] at h
  · simp at h
  rcases hg : campoFlotante cols fila "% Ganancia" with _ | g <;> rw [hg] at h
  · simp at h
  simp at h
  subst h
  exact ⟨rfl, rfl, rfl, rfl, rfl, rfl⟩

/-- C5. Spreadsheet import rows are name-keyed upserts: an absent column or a
blank cell makes the field "not provided", while a cell holding `"0"` is the
provided value 0 (distinct from not provided); when products with the row's
name exist, only the provided fields are written and every unprovided field
keeps its stored value (and nothing is inserted); when none exists, a new
product is appended with 0 substituted for unprovided numeric fields and
`""` for an unprovided supplier. -/
theorem importar_upsert_contract (cols : List String) (fila : List (String × Option String))
    (f : Fila) (ps : List Producto) (nid : ℕ) :
    (("Cantidad" ∉ cols ∨ celda fila "Cantidad" = none) → coerceFila cols fila = some f →
        f.cantidad = none)
    ∧ ("Cantidad" ∈ cols → celda fila "Cantidad" = some "0" → coerceFila cols fila = some f →
        f.cantidad = some 0)
    ∧ ((∃ p ∈ ps, p.nombre = f.nombre) →
        (aplicarFila ps nid f).2 = nid
        ∧ (aplicarFila ps nid f).1.length = ps.length
        ∧ ∀ par ∈ ps.zip (aplicarFila ps nid f).1,
            (par.1.nombre ≠ f.nombre → par.2 = par.1)
            ∧ (par.1.nombre = f.nombre →
                par.2 = ⟨par.1.id, par.1.nombre, f.cantidad.getD par.1.cantidad,
                  f.stock_minimo.getD par.1.stock_minimo,
                  f.precio_costo.getD par.1.precio_costo,
                  f.proveedor.getD par.1.proveedor, f.ganancia.getD par.1.ganancia⟩))
    ∧ ((∀ p ∈ ps, p.nombre ≠ f.nombre) →
        aplicarFila ps nid f =
          (ps ++ [⟨nid, f.nombre, f.cantidad.getD 0, f.stock_minimo.getD 0,
            f.precio_costo.getD 0, f.proveedor.getD "", f.ganancia.getD 0⟩], nid + 1)) := by
  refine ⟨fun hcond hco => ?_, fun hmem hcell hco => ?_, fun hex => ?_, fun hnone => ?_⟩
  · have hc := (coerceFila_inv cols fila f hco).1
    rw [campoEntero_not_provided cols fila "Cantidad" hcond] at hc
    exact (Option.some_inj.mp hc).symm
  · have hc := (coerceFila_inv cols fila f hco).1
    have : campoEntero cols fila "Cantidad" = some (some 0) := by
      unfold campoEntero
      rw [if_pos hmem, hcell]
      decide
    rw [this] at hc
    exact (Option.some_inj.mp hc).symm
  · have hany : ps.any (fun p => p.nombre == f.nombre) = true := by
      rcases hex with ⟨p, hp, hnom⟩
      exact List.any_eq_true.mpr ⟨p, hp, beq_iff_eq.mpr hnom⟩
    unfold aplicarFila
    rw [if_pos hany]
    refine ⟨rfl, by simp, fun par hpar => ?_⟩
    have h2 : par.2 =
        if par.1.nombre == f.nombre then aplicarCampos par.1 (camposDe f) else par.1 :=
      zip_map_snd
        (fun p => if p.nombre == f.nombre then aplicarCampos p (camposDe f) else p) ps par hpar
    refine ⟨fun hne => ?_, fun heq => ?_⟩
    · rw [h2, if_neg (by simpa using hne)]
    · rw [h2, if_pos (by simpa using heq), aplicarCampos_camposDe]
  · have hany : ps.any (fun p => p.nombre == f.nombre) = false := by
      rw [List.any_eq_false]
      intro p hp
      simpa using hnone p hp
    unfold aplicarFila
    rw [if_neg (by simp [hany])]

/-- Witness for C5: a row providing only the cost price, applied to a store
that already has a product with the row's name, inserts nothing. -/
theorem importar_upsert_contract_witness :
    (aplicarFila [⟨1, "A", 5, 2, 3, "P", 4⟩] 7 ⟨"A", none, none, some 9, none, none⟩).2 = 7 :=
  ((importar_upsert_contract [] [] ⟨"A", none, none, some 9, none, none⟩
      [⟨1, "A", 5, 2, 3, "P", 4⟩] 7).2.2.1
    ⟨⟨1, "A", 5, 2, 3, "P", 4⟩, by simp, rfl⟩).1

/-! ## C7: import error handling and counts -/

theorem importar_fold (cols : List String) (filas : List (List (String × Option String))) :
    ∀ (ps : List Producto) (nid ok err : ℕ),
      filas.foldl
        (fun st fila =>
          match coerceFila cols fila with
          | some f =>
            let res := aplicarFila st.1 st.2.1 f
            (res.1, res.2, st.2.2.1 + 1, st.2.2.2)
          | none => (st.1, st.2.1, st.2.2.1, st.2.2.2 + 1))
        (ps, nid, ok, err) =
      (((filas.filterMap (coerceFila cols)).foldl
          (fun st f => aplicarFila st.1 st.2 f) (ps, nid)).1,
        ((filas.filterMap (coerceFila cols)).foldl
          (fun st f => aplicarFila st.1 st.2 f) (ps, nid)).2,
        ok + filas.countP (fun fila => (coerceFila cols fila).isSome),
        err + filas.countP (fun fila => !(coerceFila cols fila).isSome)) := by
  induction filas with
  | nil => intro ps nid ok err; simp
  | cons fila t ih =>
    intro ps nid ok err
    rw [List.foldl_cons, List.filterMap_cons]
    cases hco : coerceFila cols fila with
    | none =>
      simp only [hco]
      rw [ih]
      simp [List.countP_cons, hco]
      omega
    | some f =>
      simp only [hco]
      rw [ih]
      simp [List.countP_cons, hco]
      omega

theorem countP_some_total (cols : List String) (filas : List (List (String × Option String))) :
    filas.countP (fun fila => (coerceFila cols fila).isSome) +
      filas.countP (fun fila => !(coerceFila cols fila).isSome) = filas.length := by
  induction filas with
  | nil => rfl
  | cons fila t ih =>
    rw [List.countP_cons, List.countP_cons, List.length_cons]
    cases h : (coerceFila cols fila).isSome
    · rw [show (if (false = true) then 1 else 0) = 0 from rfl,
        show (if ((!false) = true) then 1 else 0) = 1 from rfl]
      omega
    · rw [show (if (true = true) then 1 else 0) = 1 from rfl,
        show (if ((!true) = true) then 1 else 0) = 0 from rfl]
      omega

/-- C7. Import control flow: a sheet without the required `Nombre` column is
rejected with the user-visible message before any row is processed; otherwise
the import succeeds, the final committed state is the fold of the upserts of
exactly the rows whose coercion succeeds (so one bad row neither aborts the
batch nor blocks later rows), the reported counts are the numbers of
succeeding and failing rows and they sum to the number of rows; concretely, a
sheet whose first row has a bad quantity cell and whose second row is good
yields one error, one success, and the second row's insert. -/
theorem importar_excel_contract (cols : List String)
    (filas : List (List (String × Option String))) (ps : List Producto) (nid : ℕ) :
    ("Nombre" ∉ cols →
      importar_excel cols filas ps nid =
        Except.error "El Excel debe contener al menos la columna Nombre")
    ∧ ("Nombre" ∈ cols →
      importar_excel cols filas ps nid =
        Except.ok
          (((filas.filterMap (coerceFila cols)).foldl
              (fun st f => aplicarFila st.1 st.2 f) (ps, nid)).1,
            ((filas.filterMap (coerceFila cols)).foldl
              (fun st f => aplicarFila st.1 st.2 f) (ps, nid)).2,
            filas.countP (fun fila => (coerceFila cols fila).isSome),
            filas.countP (fun fila => !(coerceFila cols fila).isSome)))
    ∧ (filas.countP (fun fila => (coerceFila cols fila).isSome) +
        filas.countP (fun fila => !(coerceFila cols fila).isSome) = filas.length)
    ∧ importar_excel ["Nombre", "Cantidad"]
        [[("Nombre", some "A"), ("Cantidad", some "abc")],
         [("Nombre", some "B"), ("Cantidad", some "7")]] [] 1 =
        Except.ok ([⟨1, "B", 7, 0, 0, "", 0⟩], 2, 1, 1) := by
  refine ⟨fun hno => ?_, fun hsi => ?_, countP_some_total cols filas, by rfl⟩
  · unfold importar_excel
    rw [if_neg hno]
  · unfold importar_excel
    rw [if_pos hsi, importar_fold]
    simp

/-- Witness for C7: the missing-column rejection at a concrete sheet. -/
theorem importar_excel_contract_witness :
    importar_excel ["X"] [] [] 0 =
      Except.error "El Excel debe contener al menos la columna Nombre" :=
  (importar_excel_contract ["X"] [] [] 0).1 (by decide)

/-! ## C9: password change -/

/-- C9. The password change succeeds exactly when there is a session
identity whose stored row verifies the supplied current password and the new
and confirm fields match; a confirmation mismatch is rejected with its
specific error, a wrong current password with its own, and every non-success
outcome leaves the user table (hence the stored hash) unchanged, so the old
password still verifies afterwards (`check ∘ generate` holds). -/
theorem cambiar_password_contract (st : EstadoApp) (actual nueva confirmar : String) :
    ((cambiar_password st actual nueva confirmar).2 = RespuestaPassword.exito ↔
      ∃ u, st.sesion = some u ∧ nueva = confirmar ∧
        ∃ r, (st.usuarios.filter (fun x => x.usuario == u)).head? = some r ∧
          check_password_hash r.password actual = true)
    ∧ (st.sesion.isSome → nueva ≠ confirmar →
        cambiar_password st actual nueva confirmar = (st, RespuestaPassword.errorNoCoinciden))
    ∧ (∀ u r, st.sesion = some u → nueva = confirmar →
        (st.usuarios.filter (fun x => x.usuario == u)).head? = some r →
        check_password_hash r.password actual = false →
        cambiar_password st actual nueva confirmar =
          (st, RespuestaPassword.errorActualIncorrecta))
    ∧ ((cambiar_password st actual nueva confirmar).2 ≠ RespuestaPassword.exito →
        (cambiar_password st actual nueva confirmar).1 = st)
    ∧ (∀ pw, check_password_hash (generate_password_hash pw) pw = true) := by
  have hcheck : ∀ pw, check_password_hash (generate_password_hash pw) pw = true := by
    intro pw
    simp [check_password_hash]
  unfold cambiar_password
  rcases hses : st.sesion with _ | u
  · dsimp only
    refine ⟨⟨fun h => absurd h (by decide), ?_⟩, fun hs => absurd hs (by decide), ?_,
      fun h => rfl, hcheck⟩
    · rintro ⟨u, hu, -⟩
      cases hu
    · intro u r hu
      cases hu
  · dsimp only
    by_cases hne : nueva ≠ confirmar
    · rw [if_pos hne]
      refine ⟨⟨fun h =>
          absurd (show RespuestaPassword.errorNoCoinciden = RespuestaPassword.exito from h)
            (by decide), ?_⟩,
        fun _ _ => rfl, ?_, fun h => rfl, hcheck⟩
      · rintro ⟨v, hv, hcf, -⟩
        exact absurd hcf hne
      · intro v r hv hcf
        exact absurd hcf hne
    · rw [if_neg hne]
      push_neg at hne
      cases hh : (List.filter (fun r => r.usuario == u) st.usuarios).head? with
      | none =>
        dsimp only
        refine ⟨⟨fun h =>
            absurd (show RespuestaPassword.errorActualIncorrecta = RespuestaPassword.exito from h)
              (by decide), ?_⟩,
          fun _ hcon => absurd hne hcon, fun v r hv hcf hhead hch => rfl, fun h => rfl, hcheck⟩
        rintro ⟨v, hv, hcf, s, hhead, hch⟩
        cases hv
        rw [hh] at hhead
        cases hhead
      | some r =>
        dsimp only
        cases hch : check_password_hash r.password actual
        · rw [if_pos (by decide)]
          refine ⟨⟨fun h =>
              absurd
                (show RespuestaPassword.errorActualIncorrecta = RespuestaPassword.exito from h)
                (by decide), ?_⟩,
            fun _ hcon => absurd hne hcon, fun v s hv hcf hhead hchs => rfl, fun h => rfl,
            hcheck⟩
          rintro ⟨v, hv, hcf, s, hhead, hchs⟩
          cases hv
          rw [hh] at hhead
          cases hhead
          rw [hch] at hchs
          cases hchs
        · rw [if_neg (by decide)]
          refine ⟨⟨fun h => ⟨u, rfl, hne, r, hh, hch⟩, fun h => rfl⟩,
            fun _ hcon => absurd hne hcon, ?_,
            fun h =>
              absurd (show RespuestaPassword.exito = RespuestaPassword.exito from rfl) h,
            hcheck⟩
          intro v s hv hcf hhead hchs
          cases hv
          rw [hh] at hhead
          cases hhead
          rw [hch] at hchs
          cases hchs

/-- Witness for C9: a confirmation mismatch against a one-user store with a
live session is rejected and leaves the state unchanged. -/
theorem cambiar_password_contract_witness :
    cambiar_password ⟨[⟨1, "admin", generate_password_hash "admin123"⟩], some "admin"⟩
        "admin123" "a" "b" =
      (⟨[⟨1, "admin", generate_password_hash "admin123"⟩], some "admin"⟩,
        RespuestaPassword.errorNoCoinciden) :=
  (cambiar_password_contract ⟨[⟨1, "admin", generate_password_hash "admin123"⟩], some "admin"⟩
      "admin123" "a" "b").2.1 (by decide) (by decide)

/-! ## C10: malformed numeric form input -/

/-- Counterexample to C10 as stated: the create handler converts the quantity
field with plain `int(...)`, not the price normalizer, so the malformed
quantity `"abc"` raises (`none`) instead of being recovered as `0.0`. -/
theorem agregar_malformed_counterexample :
    agregar ⟨"X", "abc", "0", "10", "P", "0"⟩ [] 1 = none := by decide

/-- C10 (amended). Only the cost-price field is protected by the price
normalizer: create and edit succeed exactly when the quantity and
minimum-stock fields parse as Python ints and the markup field parses as a
Python float after comma replacement — the cost-price text never affects
success (the normalizer is total and defaults to `0.0`), while malformed
quantity, minimum stock, or markup text propagates the `ValueError`. -/
theorem agregar_editar_malformed (form : FormularioProducto) (ps : List Producto)
    (nid id : ℕ) :
    ((agregar form ps nid).isSome ↔
      (parseEnteroPy form.cantidad).isSome ∧ (parseEnteroPy form.stock_minimo).isSome ∧
        (parseFlotantePy (reemplazarComaPunto form.ganancia)).isSome)
    ∧ ((editar id form ps).isSome ↔
      (parseEnteroPy form.cantidad).isSome ∧ (parseEnteroPy form.stock_minimo).isSome ∧
        (parseFlotantePy (reemplazarComaPunto form.ganancia)).isSome) := by
  unfold agregar editar
  cases parseEnteroPy form.cantidad <;> cases parseEnteroPy form.stock_minimo <;>
    cases parseFlotantePy (reemplazarComaPunto form.ganancia) <;> simp

/-! ## C6: export→import round trip -/

theorem map_eq_self_of {α : Type} (f : α → α) (l : List α) (h : ∀ a ∈ l, f a = a) :
    l.map f = l := by
  induction l with
  | nil => rfl
  | cons a t ih =>
    rw [List.map_cons, h a (List.mem_cons_self a t), ih (fun x hx => h x (List.mem_cons_of_mem a hx))]

theorem digit_ne (c : Char) (h : c.isDigit = true) (d : Char) (hd : d.isDigit = false) :
    c ≠ d := by
  intro heq
  rw [heq, hd] at h
  cases h

theorem digit_not_ws (c : Char) (h : c.isDigit = true) : c.isWhitespace = false := by
  cases hw : c.isWhitespace with
  | false => rfl
  | true =>
    rcases ws_cases c hw with rfl | rfl | rfl | rfl <;> exact absurd h (by decide)

theorem parseNatDigits?_natDigits (m : ℕ) : parseNatDigits? (natDigits m) = some m := by
  obtain ⟨hd, hne, hv⟩ := natDigits_spec m
  unfold parseNatDigits?
  rw [if_neg (by simpa [List.isEmpty_iff] using hne), if_pos (List.all_eq_true.mpr hd), hv]

theorem strip_intStr (i : ℤ) : strip (intStr i).data = (intStr i).data := by
  obtain ⟨hd, -, -⟩ := natDigits_spec i.natAbs
  apply strip_eq_self
  intro c hc
  unfold intStr at hc
  split_ifs at hc
  · rcases List.mem_cons.mp hc with rfl | hc
    · decide
    · exact digit_not_ws c (hd c hc)
  · exact digit_not_ws c (hd c hc)

theorem parseEnteroPy_intStr (i : ℤ) : parseEnteroPy (intStr i) = some i := by
  obtain ⟨hd, hne, -⟩ := natDigits_spec i.natAbs
  unfold parseEnteroPy
  rw [strip_intStr]
  by_cases hi : i < 0
  · rw [show (intStr i).data = '-' :: natDigits i.natAbs from by unfold intStr; rw [if_pos hi]]
    dsimp only
    rw [if_pos rfl, parseNatDigits?_natDigits]
    have hval : -((i.natAbs : ℤ)) = i := by
      rcases Int.natAbs_eq i with h | h <;> omega
    dsimp only [Option.map]
    rw [hval]
  · rw [show (intStr i).data = natDigits i.natAbs from by unfold intStr; rw [if_neg hi]]
    cases hI : natDigits i.natAbs with
    | nil => exact absurd hI hne
    | cons c I2 =>
      have hc : c.isDigit = true := hd c (by rw [hI]; exact List.mem_cons_self c I2)
      dsimp only
      rw [if_neg (digit_ne c hc '-' (by decide)), if_neg (digit_ne c hc '+' (by decide)),
        ← hI, parseNatDigits?_natDigits]
      have hval : ((i.natAbs : ℤ)) = i := by
        rcases Int.natAbs_eq i with h | h <;> omega
      dsimp only [Option.map]
      rw [hval]

theorem decimalRender_digits (n k : ℕ) :
    ∀ c ∈ List.replicate (k - (natDigits (n % 10 ^ k)).length) '0' ++ natDigits (n % 10 ^ k),
      c.isDigit = true := by
  obtain ⟨hdd, -, -⟩ := natDigits_spec (n % 10 ^ k)
  intro c hc
  rcases List.mem_append.mp hc with hc | hc
  · rw [List.eq_of_mem_replicate hc]
    decide
  · exact hdd c hc

theorem decimalRender_no_ws (n k : ℕ) :
    ∀ c ∈ (decimalRender n k).data, c.isWhitespace = false := by
  obtain ⟨hId, -, -⟩ := natDigits_spec (n / 10 ^ k)
  have hFd := decimalRender_digits n k
  intro c hc
  rw [show (decimalRender n k).data = natDigits (n / 10 ^ k) ++ '.' ::
      (List.replicate (k - (natDigits (n % 10 ^ k)).length) '0' ++ natDigits (n % 10 ^ k))
    from rfl] at hc
  rcases List.mem_append.mp hc with hc | hc
  · exact digit_not_ws c (hId c hc)
  · rcases List.mem_cons.mp hc with rfl | hc
    · decide
    · exact digit_not_ws c (hFd c hc)

/-- Parsing the plain decimal rendering recovers `n / 10^k` at the level of
the raw `float` parse. -/
theorem floatVal?_decimalRender (n k : ℕ) :
    floatVal? (decimalRender n k).data = some ((n : ℚ) / 10 ^ k) := by
  obtain ⟨hId, hIne, -⟩ := natDigits_spec (n / 10 ^ k)
  have hFd := decimalRender_digits n k
  have hdata : (decimalRender n k).data = natDigits (n / 10 ^ k) ++ '.' ::
      (List.replicate (k - (natDigits (n % 10 ^ k)).length) '0' ++ natDigits (n % 10 ^ k)) := rfl
  have hfv := floatVal?_decimal _ _ hId hFd hIne
  have hnl := normalizarLista_decimal _ _ hId hFd hIne
  have hnp := normalizar_decimalRender n k
  have hne2 : ¬((decimalRender n k).data = []) := by
    intro hcon
    rw [hdata] at hcon
    simp at hcon
  unfold normalizar_precio at hnp
  rw [if_neg hne2, hdata, hnl] at hnp
  rw [hdata, hfv, hnp]

/-- Parsing the plain decimal rendering with Python `float` recovers
`n / 10^k`. -/
theorem parseFlotantePy_decimalRender (n k : ℕ) :
    parseFlotantePy (decimalRender n k) = some ((n : ℚ) / 10 ^ k) := by
  obtain ⟨hId, hIne, -⟩ := natDigits_spec (n / 10 ^ k)
  have hdata : (decimalRender n k).data = natDigits (n / 10 ^ k) ++ '.' ::
      (List.replicate (k - (natDigits (n % 10 ^ k)).length) '0' ++ natDigits (n % 10 ^ k)) := rfl
  have hstrip : strip (decimalRender n k).data = (decimalRender n k).data :=
    strip_eq_self _ (decimalRender_no_ws n k)
  unfold parseFlotantePy
  rw [hstrip, hdata]
  cases hI : natDigits (n / 10 ^ k) with
  | nil => exact absurd hI hIne
  | cons c I2 =>
    have hc : c.isDigit = true := hId c (by rw [hI]; exact List.mem_cons_self c I2)
    rw [List.cons_append]
    dsimp only
    rw [if_neg (digit_ne c hc '-' (by decide)), if_neg (digit_ne c hc '+' (by decide)),
      ← List.cons_append, ← hI, ← hdata]
    exact floatVal?_decimalRender n k

theorem reemplazar_decimalRender (n k : ℕ) :
    reemplazarComaPunto (decimalRender n k) = decimalRender n k := by
  obtain ⟨hId, -, -⟩ := natDigits_spec (n / 10 ^ k)
  have hFd := decimalRender_digits n k
  have hdata : (decimalRender n k).data = natDigits (n / 10 ^ k) ++ '.' ::
      (List.replicate (k - (natDigits (n % 10 ^ k)).length) '0' ++ natDigits (n % 10 ^ k)) := rfl
  unfold reemplazarComaPunto
  have hmap : (decimalRender n k).data.map (fun c => if c == ',' then '.' else c) =
      (decimalRender n k).data := by
    apply map_eq_self_of
    intro c hc
    rw [hdata] at hc
    rcases List.mem_append.mp hc with hc | hc
    · rw [digit_beq_comma c (hId c hc)]
      rfl
    · rcases List.mem_cons.mp hc with rfl | hc
      · rfl
      · rw [digit_beq_comma c (hFd c hc)]
        rfl
  rw [hmap]

theorem dvd_ten_pow_self (d k : ℕ) (h : d ∣ 10 ^ k) : d ∣ 10 ^ d := by
  have h10 : (10 : ℕ) ^ k = 2 ^ k * 5 ^ k := by
    rw [← mul_pow]
    norm_num
  rw [h10] at h
  obtain ⟨d2, d5, h2, h5, rfl⟩ := exists_dvd_and_dvd_of_dvd_mul h
  obtain ⟨a, ha, rfl⟩ := (Nat.dvd_prime_pow Nat.prime_two).mp h2
  obtain ⟨b, hb, rfl⟩ := (Nat.dvd_prime_pow (by norm_num)).mp h5
  have had : a ≤ 2 ^ a * 5 ^ b :=
    le_trans (le_of_lt (Nat.lt_two_pow a)) (Nat.le_mul_of_pos_right _ (pow_pos (by norm_num) b))
  have hbd : b ≤ 2 ^ a * 5 ^ b := by
    have h1 : b < 5 ^ b :=
      lt_of_lt_of_le (Nat.lt_two_pow b) (Nat.pow_le_pow_left (by norm_num) b)
    exact le_trans (le_of_lt h1) (Nat.le_mul_of_pos_left _ (pow_pos (by norm_num) a))
  calc 2 ^ a * 5 ^ b ∣ 2 ^ (2 ^ a * 5 ^ b) * 5 ^ (2 ^ a * 5 ^ b) :=
        mul_dvd_mul (pow_dvd_pow 2 had) (pow_dvd_pow 5 hbd)
    _ = 10 ^ (2 ^ a * 5 ^ b) := by
        rw [← mul_pow]
        norm_num

/-- Rendering a decimal value of either sign and parsing it back (through the
importer's comma replacement) is the identity.  Every value the application
ever stores in a `REAL` column is a Python float `± m / 2^e`, hence a signed
decimal `mkRat z (10^k)`, so this hypothesis excludes no reachable store. -/
theorem renderQ_roundtrip (q : ℚ) (z : ℤ) (k : ℕ) (hq : q = mkRat z (10 ^ k)) :
    parseFlotantePy (reemplazarComaPunto (renderQ q)) = some q := by
  have hdvd : q.den ∣ 10 ^ q.den := by
    apply dvd_ten_pow_self _ k
    have hdint : ((q.den : ℤ)) ∣ ((10 ^ k : ℕ) : ℤ) := by
      rw [hq, Rat.mkRat_eq_divInt]
      exact_mod_cast Rat.den_dvd z ((10 ^ k : ℕ) : ℤ)
    exact_mod_cast hdint
  have hden : ((q.den : ℚ)) ≠ 0 := by
    exact_mod_cast q.den_nz
  have hexact : (q.num.natAbs * 10 ^ q.den / q.den : ℕ) * q.den = q.num.natAbs * 10 ^ q.den :=
    Nat.div_mul_cancel (Dvd.dvd.mul_left hdvd q.num.natAbs)
  have h1 : ((q.num.natAbs * 10 ^ q.den / q.den : ℕ) : ℚ) / 10 ^ q.den =
      (q.num.natAbs : ℚ) / q.den := by
    rw [div_eq_div_iff (by positivity) hden]
    exact_mod_cast hexact
  by_cases hn : q.num < 0
  · have hrq : renderQ q = "-" ++ decimalRender (q.num.natAbs * 10 ^ q.den / q.den) q.den := by
      unfold renderQ
      rw [if_pos hn]
    have hmapD : (decimalRender (q.num.natAbs * 10 ^ q.den / q.den) q.den).data.map
        (fun c => if c == ',' then '.' else c) =
        (decimalRender (q.num.natAbs * 10 ^ q.den / q.den) q.den).data :=
      congrArg String.data (reemplazar_decimalRender (q.num.natAbs * 10 ^ q.den / q.den) q.den)
    have hreem : reemplazarComaPunto
        ("-" ++ decimalRender (q.num.natAbs * 10 ^ q.den / q.den) q.den) =
        "-" ++ decimalRender (q.num.natAbs * 10 ^ q.den / q.den) q.den := by
      unfold reemplazarComaPunto
      rw [show ("-" ++ decimalRender (q.num.natAbs * 10 ^ q.den / q.den) q.den).data =
          '-' :: (decimalRender (q.num.natAbs * 10 ^ q.den / q.den) q.den).data from rfl,
        List.map_cons, hmapD]
      rfl
    have hstrip : strip
        ('-' :: (decimalRender (q.num.natAbs * 10 ^ q.den / q.den) q.den).data) =
        '-' :: (decimalRender (q.num.natAbs * 10 ^ q.den / q.den) q.den).data := by
      apply strip_eq_self
      intro c hc
      rcases List.mem_cons.mp hc with rfl | hc
      · decide
      · exact decimalRender_no_ws _ _ c hc
    rw [hrq, hreem]
    unfold parseFlotantePy
    rw [show ("-" ++ decimalRender (q.num.natAbs * 10 ^ q.den / q.den) q.den).data =
        '-' :: (decimalRender (q.num.natAbs * 10 ^ q.den / q.den) q.den).data from rfl,
      hstrip]
    dsimp only
    rw [if_pos rfl, floatVal?_decimalRender]
    dsimp only [Option.map]
    refine congrArg some ?_
    rw [h1]
    have h2 : ((q.num.natAbs : ℕ) : ℚ) = -((q.num : ℤ) : ℚ) := by
      rw [Int.cast_natAbs, abs_of_neg hn]
      push_cast
      ring
    rw [h2, neg_div, neg_neg, Rat.num_div_den]
  · have hnum : 0 ≤ q.num := not_lt.mp hn
    have hrq : renderQ q = decimalRender (q.num.natAbs * 10 ^ q.den / q.den) q.den := by
      unfold renderQ
      rw [if_neg hn]
    rw [hrq, reemplazar_decimalRender, parseFlotantePy_decimalRender]
    refine congrArg some ?_
    rw [h1]
    have h2 : ((q.num.natAbs : ℕ) : ℚ) = ((q.num : ℤ) : ℚ) := by
      rw [Int.cast_natAbs, abs_of_nonneg hnum]
    rw [h2, Rat.num_div_den]

theorem orCero_eq (q : ℚ) : orCero q = q := by
  unfold orCero
  split_ifs with h
  · exact h.symm
  · rfl

/-- An export row coerces to the fully-provided typed row of its product,
provided the name and supplier carry no surrounding whitespace and the two
float fields are exact decimals of either sign — which every Python float
value (`± m / 2^e`) is. -/
theorem coerceFila_filaExport (p : Producto)
    (hnombre : String.mk (strip p.nombre.data) = p.nombre)
    (hprov : String.mk (strip p.proveedor.data) = p.proveedor)
    (hpc : ∃ (z : ℤ) (k : ℕ), p.precio_costo = mkRat z (10 ^ k))
    (hg : ∃ (z : ℤ) (k : ℕ), p.ganancia = mkRat z (10 ^ k)) :
    coerceFila columnasExport (filaExport p) = some (filaTipada p) := by
  obtain ⟨pn, pk, hpcv⟩ := hpc
  obtain ⟨gn, gk, hgv⟩ := hg
  have hc : campoEntero columnasExport (filaExport p) "Cantidad" = some (some p.cantidad) := by
    unfold campoEntero
    rw [if_pos (by decide),
      show celda (filaExport p) "Cantidad" = some (intStr p.cantidad) from rfl]
    dsimp only
    rw [parseEnteroPy_intStr]
    rfl
  have hs : campoEntero columnasExport (filaExport p) "Stock Mínimo" =
      some (some p.stock_minimo) := by
    unfold campoEntero
    rw [if_pos (by decide),
      show celda (filaExport p) "Stock Mínimo" = some (intStr p.stock_minimo) from rfl]
    dsimp only
    rw [parseEnteroPy_intStr]
    rfl
  have hpcq : campoFlotante columnasExport (filaExport p) "Precio Costo" =
      some (some p.precio_costo) := by
    unfold campoFlotante
    rw [if_pos (by decide),
      show celda (filaExport p) "Precio Costo" = some (renderQ p.precio_costo) from rfl]
    dsimp only
    rw [renderQ_roundtrip p.precio_costo pn pk hpcv]
    rfl
  have hgq : campoFlotante columnasExport (filaExport p) "% Ganancia" =
      some (some p.ganancia) := by
    unfold campoFlotante
    rw [if_pos (by decide),
      show celda (filaExport p) "% Ganancia" = some (renderQ (orCero p.ganancia)) from rfl]
    dsimp only
    rw [orCero_eq, renderQ_roundtrip p.ganancia gn gk hgv]
    rfl
  have hnom : nombreDe (filaExport p) = p.nombre := by
    unfold nombreDe
    rw [show celda (filaExport p) "Nombre" = some p.nombre from rfl]
    exact hnombre
  have hprv : campoTexto columnasExport (filaExport p) "Proveedor" = some p.proveedor := by
    unfold campoTexto
    rw [if_pos (by decide),
      show celda (filaExport p) "Proveedor" = some p.proveedor from rfl]
    dsimp only
    rw [hprov]
  unfold coerceFila
  rw [hc, hs, hpcq, hgq]
  dsimp only [Bind.bind, Option.bind]
  rw [hnom, hprv]
  rfl

/-- Writing every field of a product back onto itself is the identity. -/
theorem aplicarCampos_tipada (p : Producto) :
    aplicarCampos p (camposDe (filaTipada p)) = p := by
  rw [aplicarCampos_camposDe]
  rfl

/-- Upserting a product's own fully-provided row into a distinct-name store
changes nothing. -/
theorem aplicarFila_self (ps : List Producto) (nid : ℕ) (p : Producto) (hp : p ∈ ps)
    (hdist : ps.Pairwise (fun a b => a.nombre ≠ b.nombre)) :
    aplicarFila ps nid (filaTipada p) = (ps, nid) := by
  have hany : ps.any (fun r => r.nombre == (filaTipada p).nombre) = true :=
    List.any_eq_true.mpr ⟨p, hp, by simp [filaTipada]⟩
  unfold aplicarFila
  rw [if_pos hany]
  have hmap : ps.map (fun r => if r.nombre == (filaTipada p).nombre then
      aplicarCampos r (camposDe (filaTipada p)) else r) = ps := by
    apply map_eq_self_of
    intro r hr
    by_cases hbeq : r.nombre == (filaTipada p).nombre
    · rw [if_pos hbeq]
      have hnameeq : r.nombre = p.nombre := by simpa [filaTipada] using hbeq
      have hsym : Symmetric (fun a b : Producto => a.nombre ≠ b.nombre) :=
        fun a b hab heq => hab heq.symm
      have hrp : r = p := by
        by_contra hne
        exact (hdist.forall hsym hr hp hne) hnameeq
      rw [hrp, aplicarCampos_tipada]
    · rw [if_neg hbeq]
  rw [hmap]

theorem filterMap_eq_map {α β : Type} (f : α → Option β) (g : α → β) (l : List α)
    (h : ∀ a ∈ l, f a = some (g a)) : l.filterMap f = l.map g := by
  induction l with
  | nil => rfl
  | cons a t ih =>
    rw [List.filterMap_cons, h a (List.mem_cons_self a t), List.map_cons,
      ih (fun x hx => h x (List.mem_cons_of_mem a hx))]

theorem foldl_aplicar_const (ps : List Producto) (nid : ℕ) :
    ∀ L : List Fila, (∀ f ∈ L, aplicarFila ps nid f = (ps, nid)) →
      L.foldl (fun st f => aplicarFila st.1 st.2 f) (ps, nid) = (ps, nid) := by
  intro L
  induction L with
  | nil => intro h; rfl
  | cons f t ih =>
    intro h
    rw [List.foldl_cons]
    have h1 : aplicarFila (ps, nid).1 (ps, nid).2 f = (ps, nid) := h f (List.mem_cons_self f t)
    rw [h1]
    exact ih (fun g hg => h g (List.mem_cons_of_mem f hg))

/-- C6 (amended). When the stored product names are pairwise distinct, the
name and supplier fields carry no surrounding whitespace (the import strips
both), and the stored cost price and markup are exact decimal values
`± n / 10^k` of either sign — which every Python float value `± m / 2^e` is,
so this excludes no store the application can reach — exporting the store and
re-importing the produced sheet reproduces the identical product list:
nothing added, removed, or changed, with every row counted as a success,
because the general export omits the derived sale price and uses exactly the
import's column set.  (With duplicate names the name-keyed update overwrites
all same-named rows; see the counterexample.) -/
theorem exportar_importar_roundtrip (ps : List Producto) (nid : ℕ)
    (hdist : ps.Pairwise (fun a b => a.nombre ≠ b.nombre))
    (htrim : ∀ p ∈ ps, String.mk (strip p.nombre.data) = p.nombre ∧
      String.mk (strip p.proveedor.data) = p.proveedor)
    (hdec : ∀ p ∈ ps, (∃ (z : ℤ) (k : ℕ), p.precio_costo = mkRat z (10 ^ k)) ∧
      (∃ (z : ℤ) (k : ℕ), p.ganancia = mkRat z (10 ^ k))) :
    importar_excel (exportar_excel ps).1 (exportar_excel ps).2 ps nid =
      Except.ok (ps, nid, ps.length, 0) := by
  have hco : ∀ p ∈ ps, coerceFila columnasExport (filaExport p) = some (filaTipada p) :=
    fun p hp =>
      coerceFila_filaExport p (htrim p hp).1 (htrim p hp).2 (hdec p hp).1 (hdec p hp).2
  rw [show (exportar_excel ps).1 = columnasExport from rfl,
    show (exportar_excel ps).2 = ps.map filaExport from rfl]
  unfold importar_excel
  rw [if_pos (by decide), importar_fold]
  have hfm : (ps.map filaExport).filterMap (coerceFila columnasExport) = ps.map filaTipada := by
    rw [List.filterMap_map]
    exact filterMap_eq_map _ _ ps (fun p hp => hco p hp)
  rw [hfm]
  have hfold : (ps.map filaTipada).foldl (fun st f => aplicarFila st.1 st.2 f) (ps, nid) =
      (ps, nid) := by
    apply foldl_aplicar_const
    intro f hf
    rcases List.mem_map.mp hf with ⟨p, hp, rfl⟩
    exact aplicarFila_self ps nid p hp hdist
  rw [hfold]
  have hok : (ps.map filaExport).countP
      (fun fila => (coerceFila columnasExport fila).isSome) = ps.length := by
    rw [List.countP_map, List.countP_eq_length]
    intro p hp
    simp [Function.comp, hco p hp]
  have herr : (ps.map filaExport).countP
      (fun fila => !(coerceFila columnasExport fila).isSome) = 0 := by
    rw [List.countP_map, List.countP_eq_zero]
    intro p hp
    simp [Function.comp, hco p hp]
  rw [hok, herr]
  norm_num

/-- Witness for C6's amended round trip on a two-product store with distinct
names, one with a negative markup. -/
theorem exportar_importar_roundtrip_witness :
    importar_excel
        (exportar_excel [⟨1, "A", 1, 0, 0, "", -5⟩, ⟨2, "B", 2, 0, 0, "", 0⟩]).1
        (exportar_excel [⟨1, "A", 1, 0, 0, "", -5⟩, ⟨2, "B", 2, 0, 0, "", 0⟩]).2
        [⟨1, "A", 1, 0, 0, "", -5⟩, ⟨2, "B", 2, 0, 0, "", 0⟩] 3 =
      Except.ok ([⟨1, "A", 1, 0, 0, "", -5⟩, ⟨2, "B", 2, 0, 0, "", 0⟩], 3, 2, 0) :=
  exportar_importar_roundtrip [⟨1, "A", 1, 0, 0, "", -5⟩, ⟨2, "B", 2, 0, 0, "", 0⟩] 3
    (by decide)
    (by
      intro p hp
      fin_cases hp <;> exact ⟨rfl, rfl⟩)
    (by
      intro p hp
      fin_cases hp
      · exact ⟨⟨0, 0, by decide⟩, ⟨-5, 0, by decide⟩⟩
      · exact ⟨⟨0, 0, by decide⟩, ⟨0, 0, by decide⟩⟩)

/-- Counterexample to C6 as stated: with two stored products sharing the name
`"A"`, the export→import round trip overwrites both rows with the last
exported row's quantity, so the store is NOT reproduced unchanged. -/
theorem exportar_importar_counterexample :
    importar_excel
        (exportar_excel [⟨1, "A", 1, 0, 0, "", 0⟩, ⟨2, "A", 2, 0, 0, "", 0⟩]).1
        (exportar_excel [⟨1, "A", 1, 0, 0, "", 0⟩, ⟨2, "A", 2, 0, 0, "", 0⟩]).2
        [⟨1, "A", 1, 0, 0, "", 0⟩, ⟨2, "A", 2, 0, 0, "", 0⟩] 3 ≠
      Except.ok ([⟨1, "A", 1, 0, 0, "", 0⟩, ⟨2, "A", 2, 0, 0, "", 0⟩], 3, 2, 0) := by
  intro h
  have hcomp : importar_excel
      (exportar_excel [⟨1, "A", 1, 0, 0, "", 0⟩, ⟨2, "A", 2, 0, 0, "", 0⟩]).1
      (exportar_excel [⟨1, "A", 1, 0, 0, "", 0⟩, ⟨2, "A", 2, 0, 0, "", 0⟩]).2
      [⟨1, "A", 1, 0, 0, "", 0⟩, ⟨2, "A", 2, 0, 0, "", 0⟩] 3 =
      Except.ok ([⟨1, "A", 2, 0, 0, "", 0⟩, ⟨2, "A", 2, 0, 0, "", 0⟩], 3, 2, 0) := rfl
  rw [hcomp] at h
  exact absurd (Except.ok.inj h) (by decide)

end AppNegocio
